import Mathlib

/-!
Shallow embedding of the backtesting core of this repository
(`backtest/packages/{config,models,utils,engine,metrics}.py`).

Conventions of the embedding:
* Python `float` values are modelled as exact rationals (`Rat`); the one
  operation that leaves the rationals, `pandas.Series.std` (a square root),
  is modelled over `Real`.
* Python dictionaries (`positions`, `asset_balances`, `equity_curve`) are
  modelled as insertion-ordered association lists: writing an existing key
  replaces its value in place, writing a fresh key appends it, matching
  CPython dict semantics.  `defaultdict` access that inserts a default
  value is modelled by `touchKey`.
* A raised Python exception is modelled with `Except`: `ZeroDivisionError`
  (division of a float by exact zero) becomes `BtError.zeroDiv`, and the
  `ValueError` in `Trade.from_position` becomes `BtError.invalidSide`.
* A `pandas` sample standard deviation of a series of length `< 2` is
  `NaN` (ddof = 1); `NaN` results are modelled with `Option` (`none`).
* The engine's trade ledger entries are tagged with the asset whose close
  produced them (the pair's first component); the Python `Trade` object
  itself carries no asset field, and dropping the tags with
  `List.map Prod.snd` recovers the Python ledger.
-/

namespace Backtest

/-- The `TradeSide` enum of `config.py` / `models.py`. -/
inductive TradeSide where
  | BUY
  | SELL
  | CLOSE
deriving DecidableEq, Repr

/-- The `Signal` dataclass of `models.py`; timestamps are modelled as `Int`. -/
structure Signal where
  timestamp : Int
  side : TradeSide
  price : Rat
  asset : String
deriving DecidableEq, Repr

/-- The `Position` dataclass of `models.py`. -/
structure Position where
  side : TradeSide
  entry_price : Rat
  quantity : Rat
  entry_time : Int
deriving DecidableEq, Repr

/-- `Position.market_value` from `models.py`. -/
def Position.market_value (p : Position) (market_price : Rat) : Rat :=
  p.quantity * market_price

/-- The `Trade` dataclass of `models.py`. -/
structure Trade where
  entry_time : Int
  exit_time : Int
  side : TradeSide
  entry_price : Rat
  exit_price : Rat
  quantity : Rat
  pnl : Rat
  return_pct : Rat
  exit_value : Rat
deriving DecidableEq, Repr

/-- The errors the embedded code can raise: the `ValueError` of
`Trade.from_position`, and Python's `ZeroDivisionError`. -/
inductive BtError where
  | invalidSide
  | zeroDiv
deriving DecidableEq, Repr

/-- `Trade.from_position` from `models.py`.  The `else: raise ValueError`
branch is modelled as `Except.error .invalidSide`. -/
def Trade.from_position (position : Position) (exit_price : Rat) (exit_time : Int) :
    Except BtError Trade :=
  let quantity := position.quantity
  let entry_price := position.entry_price
  let side := position.side
  match side with
  | .CLOSE => .error .invalidSide
  | _ =>
    let pnl := match side with
      | .BUY => (exit_price - entry_price) * quantity
      | _ => (entry_price - exit_price) * quantity
    let entry_value := entry_price * quantity
    let exit_value := exit_price * quantity
    let return_pct := if entry_value ≠ 0 then (pnl / entry_value) * 100 else 0
    .ok {
      entry_time := position.entry_time
      exit_time := exit_time
      side := side
      entry_price := entry_price
      exit_price := exit_price
      quantity := quantity
      pnl := pnl
      return_pct := return_pct
      exit_value := exit_value
    }

/-- `apply_slippage` from `utils.py`. -/
def apply_slippage (price slippage : Rat) (side : TradeSide) : Rat :=
  match side with
  | .BUY => price * (1 + slippage)
  | .SELL => price * (1 - slippage)
  | _ => price

/-- `apply_fees` from `utils.py`. -/
def apply_fees (price fee : Rat) (side : TradeSide) : Rat :=
  match side with
  | .BUY => price * (1 + fee)
  | .SELL => price * (1 - fee)
  | _ => price

/-- The `BacktestConfig` dataclass of `config.py`. -/
structure BacktestConfig where
  slippage : Rat := 1 / 1000
  fee : Rat := 1 / 1000
  stop_loss_pct : Rat := 0
  take_profit_pct : Rat := 0
  allow_short : Bool := false
  mode : String := "compound"
deriving DecidableEq, Repr

/-- One asset's entry in an equity snapshot: the `{asset}_balance`,
`{asset}_price` (absent when the asset is flat) and `{asset}_value` keys
written by `BacktestEngine._update_equity`. -/
structure AssetSnap where
  balance : Rat
  price : Option Rat
  value : Rat
deriving DecidableEq, Repr

/-- One row of the equity curve: the snapshot dict written by
`BacktestEngine._update_equity` (keys `cash_usdc`, per-asset entries in
the position table's iteration order, and `equity_usdc`). -/
structure Snapshot where
  cash_usdc : Rat
  assets : List (String × AssetSnap)
  equity_usdc : Rat
deriving DecidableEq, Repr

/-- Association-list lookup (first entry with the given key). -/
def lookupA {α β : Type} [DecidableEq α] : List (α × β) → α → Option β
  | [], _ => none
  | (k, v) :: rest, a => if k = a then some v else lookupA rest a

/-- Association-list write with CPython dict semantics: replace the value
in place when the key exists, append otherwise. -/
def setA {α β : Type} [DecidableEq α] : List (α × β) → α → β → List (α × β)
  | [], a, b => [(a, b)]
  | (k, v) :: rest, a, b =>
      if k = a then (a, b) :: rest else (k, v) :: setA rest a b

/-- `defaultdict` access: reading a missing key inserts the default value
(at the end, in insertion order) without otherwise changing the table. -/
def touchKey {α β : Type} [DecidableEq α] (l : List (α × β)) (a : α) (d : β) :
    List (α × β) :=
  if (lookupA l a).isSome then l else l ++ [(a, d)]

/-- The mutable state of a `BacktestEngine` instance (`engine.py`):
the trade ledger (each entry tagged with its asset), the equity-curve
dict, the per-asset position table, the per-asset signed balances and the
cash balance. -/
structure EngineState where
  trades : List (String × Trade)
  equity_curve : List (Int × Snapshot)
  positions : List (String × Option Position)
  asset_balances : List (String × Rat)
  cash_usdc : Rat
deriving DecidableEq, Repr

/-- The state right after `BacktestEngine.__init__`. -/
def initState (initial_capital : Rat) : EngineState :=
  { trades := []
    equity_curve := []
    positions := []
    asset_balances := []
    cash_usdc := initial_capital }

/-- The open position stored for an asset, if any (`self.positions[asset]`
read without the defaultdict insertion side effect). -/
def EngineState.getPos (st : EngineState) (asset : String) : Option Position :=
  (lookupA st.positions asset).join

/-- `BacktestEngine._active_asset_count`: the number of distinct assets in
the full (sorted) signal list. -/
def active_asset_count (sortedSignals : List Signal) : Nat :=
  ((sortedSignals.map Signal.asset).dedup).length

/-- The most recent signal price for `asset` at or before `timestamp`,
falling back to the position's entry price: the generator expression in
`BacktestEngine._update_equity`. -/
def latestPrice (sortedSignals : List Signal) (asset : String) (timestamp : Int)
    (position : Position) : Rat :=
  match sortedSignals.reverse.find?
      (fun s => s.asset = asset && decide (s.timestamp ≤ timestamp)) with
  | some s => s.price
  | none => position.entry_price

/-- The snapshot dict built by `BacktestEngine._update_equity` from the
current position table and cash balance. -/
def mkSnapshot (sortedSignals : List Signal) (positions : List (String × Option Position))
    (cash : Rat) (timestamp : Int) : Snapshot :=
  let assets := positions.map (fun e =>
    match e.2 with
    | some p =>
        let lp := latestPrice sortedSignals e.1 timestamp p
        (e.1, AssetSnap.mk p.quantity (some lp) (p.market_value lp))
    | none => (e.1, AssetSnap.mk 0 none 0))
  let openValues := positions.map (fun e =>
    match e.2 with
    | some p => p.market_value (latestPrice sortedSignals e.1 timestamp p)
    | none => 0)
  { cash_usdc := cash
    assets := assets
    equity_usdc := cash + openValues.sum }

/-- `BacktestEngine._update_equity`: store the snapshot under the signal's
timestamp (overwriting the entry for that timestamp if present). -/
def update_equity (sortedSignals : List Signal) (st : EngineState) (timestamp : Int) :
    EngineState :=
  let snap := mkSnapshot sortedSignals st.positions st.cash_usdc timestamp
  { st with equity_curve := setA st.equity_curve timestamp snap }

/-- `BacktestEngine._open_position`.  The `alloc_cash / entry_price`
division raises `ZeroDivisionError` when the adjusted entry price is
exactly zero, as does `cash / active_asset_count` when the signal list is
empty; both are modelled as `BtError.zeroDiv`. -/
def open_position (sortedSignals : List Signal) (config : BacktestConfig)
    (initial_capital : Rat) (st : EngineState) (signal : Signal) :
    Except BtError EngineState :=
  let asset := signal.asset
  let positions := touchKey st.positions asset none
  match (lookupA positions asset).join with
  | some _ => .ok { st with positions := positions }
  | none =>
    let entry_price := apply_fees
      (apply_slippage signal.price config.slippage signal.side) config.fee signal.side
    let n : Nat := active_asset_count sortedSignals
    if n = 0 then .error .zeroDiv else
    let alloc_cash := st.cash_usdc / (n : Rat)
    let alloc_cash :=
      if config.mode = "fixed" then min alloc_cash (initial_capital / (n : Rat))
      else alloc_cash
    if entry_price = 0 then .error .zeroDiv else
    let quantity := alloc_cash / entry_price
    let newPos : Position :=
      { side := signal.side, entry_price := entry_price,
        quantity := quantity, entry_time := signal.timestamp }
    let newBalance := if signal.side = .BUY then quantity else -quantity
    .ok { st with
          positions := setA positions asset (some newPos),
          asset_balances := setA st.asset_balances asset newBalance,
          cash_usdc := st.cash_usdc - alloc_cash }

/-- `BacktestEngine._close_position`. -/
def close_position (config : BacktestConfig) (st : EngineState) (signal : Signal) :
    Except BtError EngineState :=
  let asset := signal.asset
  let positions := touchKey st.positions asset none
  match (lookupA positions asset).join with
  | none => .ok { st with positions := positions }
  | some position =>
    let exit_price := apply_fees
      (apply_slippage signal.price config.slippage signal.side) config.fee signal.side
    match Trade.from_position position exit_price signal.timestamp with
    | .error e => .error e
    | .ok trade =>
      .ok { st with
            trades := st.trades ++ [(asset, trade)],
            cash_usdc := st.cash_usdc + trade.exit_value,
            asset_balances := setA st.asset_balances asset 0,
            positions := setA positions asset none }

/-- The body of the signal loop in `BacktestEngine.run`: dispatch on the
side, then record the equity snapshot. -/
def process_signal (sortedSignals : List Signal) (config : BacktestConfig)
    (initial_capital : Rat) (st : EngineState) (signal : Signal) :
    Except BtError EngineState :=
  match signal.side with
  | .BUY | .SELL =>
      (open_position sortedSignals config initial_capital st signal).map
        (fun st' => update_equity sortedSignals st' signal.timestamp)
  | .CLOSE =>
      (close_position config st signal).map
        (fun st' => update_equity sortedSignals st' signal.timestamp)

/-- `BacktestEngine._force_close_last_position`. -/
def force_close_last_position (config : BacktestConfig) (st : EngineState)
    (asset : String) (timestamp : Int) (price : Rat) : Except BtError EngineState :=
  if (st.getPos asset).isSome then
    close_position config st
      { timestamp := timestamp, side := .CLOSE, price := price, asset := asset }
  else .ok st

/-- The force-close loop at the end of `BacktestEngine.run`: iterate over
the position table's keys, closing every asset still holding a position at
the final signal's timestamp and price. -/
def force_close_all (config : BacktestConfig) (st : EngineState)
    (timestamp : Int) (price : Rat) : Except BtError EngineState :=
  (st.positions.map Prod.fst).foldlM
    (fun acc asset =>
      if (acc.getPos asset).isSome then
        force_close_last_position config acc asset timestamp price
      else .ok acc)
    st

/-- `sorted(signals, key=lambda s: s.timestamp)` (stable). -/
def sortSignals (signals : List Signal) : List Signal :=
  signals.mergeSort (fun a b => decide (a.timestamp ≤ b.timestamp))

/-- `BacktestEngine.run` on an already-sorted signal list, up to (and
including) the force-close loop; returns the final engine state. -/
def run_sorted (ss : List Signal) (config : BacktestConfig) (initial_capital : Rat) :
    Except BtError EngineState := do
  let st ← ss.foldlM (process_signal ss config initial_capital) (initState initial_capital)
  match ss.getLast? with
  | none => .ok st
  | some lastSig => force_close_all config st lastSig.timestamp lastSig.price

/-- `BacktestEngine.run` up to the force-close loop: sort, process every
signal, force-close all remaining positions. -/
def run_state (signals : List Signal) (config : BacktestConfig)
    (initial_capital : Rat) : Except BtError EngineState :=
  run_sorted (sortSignals signals) config initial_capital

/-- Mean of a list of rationals (`pandas.Series.mean`, only ever applied
to non-empty series here). -/
def listMean (l : List Rat) : Rat :=
  l.sum / (l.length : Rat)

/-- Sample variance with `ddof = 1`, the default of `pandas.Series.var`;
`none` models the `NaN` that pandas returns for series of length `< 2`. -/
def sampleVariance (l : List Rat) : Option Rat :=
  if l.length < 2 then none
  else some ((l.map (fun x => (x - listMean l) ^ 2)).sum / ((l.length : Rat) - 1))

/-- `pandas.Series.std` (`ddof = 1`): the square root of `sampleVariance`;
`none` models `NaN`. -/
noncomputable def sampleStd (l : List Rat) : Option Real :=
  (sampleVariance l).map (fun v => Real.sqrt (v : Real))

/-- The Sharpe quotient of `compute_kpis`:
`returns.mean() / (returns.std() + 1e-6)`; `none` models a `NaN` result
(a `NaN` standard deviation propagates through `+` and `/`). -/
noncomputable def sharpeOf (returns : List Rat) : Option Real :=
  (sampleStd returns).map (fun s => ((listMean returns : Rat) : Real) / (s + 1e-6))

/-- `pandas.Series.cumsum` (running partial sums). -/
def cumsumFrom (acc : Rat) : List Rat → List Rat
  | [] => []
  | x :: xs => (acc + x) :: cumsumFrom (acc + x) xs

/-- Cumulative sums of a list, first partial sum first. -/
def cumsum (l : List Rat) : List Rat :=
  cumsumFrom 0 l

/-- `pandas.Series.cummax` (running maxima), given a starting maximum. -/
def runningMaxFrom (m : Rat) : List Rat → List Rat
  | [] => []
  | x :: xs => max m x :: runningMaxFrom (max m x) xs

/-- `pandas.Series.cummax` (running maxima). -/
def runningMax : List Rat → List Rat
  | [] => []
  | x :: xs => x :: runningMaxFrom x xs

/-- `pandas.Series.min` of a non-empty series (the empty case is never
reached: `compute_kpis` only computes it for a non-empty trade list). -/
def listMin : List Rat → Rat
  | [] => 0
  | x :: xs => xs.foldl min x

/-- The KPI dict returned by `compute_kpis` (`metrics.py`).
`sharpe_ratio` is `none` when the Python value is `NaN`; `final_balances`
is `none` when the Python dict lacks the key; `mode` is `none` when no
config was supplied. -/
structure KpiReport where
  total_return_pct : Rat
  sharpe_ratio : Option Real
  max_drawdown_pct : Rat
  hit_ratio : Rat
  total_trades : Nat
  final_balances : Option (List (String × Rat))
  mode : Option String

/-- The `final_balances` extraction of `compute_kpis`: every key of the
final snapshot containing `_balance` or `_value`, or equal to
`cash_usdc` (per-asset `_price` keys and `equity_usdc` are excluded). -/
def snapshotBalances (s : Snapshot) : List (String × Rat) :=
  ("cash_usdc", s.cash_usdc) ::
    (s.assets.map (fun e =>
      [(e.1 ++ "_balance", e.2.balance), (e.1 ++ "_value", e.2.value)])).flatten

/-- `compute_kpis` from `metrics.py`.  The equity curve is `none` when the
caller passes `equity_curve=None`, and the config is `none` when the
caller passes `config=None` (a `BacktestConfig` instance is always truthy
and always has a `mode` attribute). -/
noncomputable def compute_kpis (trades : List Trade) (initial_capital : Rat)
    (equity_curve : Option (List (Int × Snapshot))) (config : Option BacktestConfig) :
    KpiReport :=
  match trades with
  | [] =>
    { total_return_pct := 0
      sharpe_ratio := some 0
      max_drawdown_pct := 0
      hit_ratio := 0
      total_trades := 0
      final_balances := some []
      mode := config.map BacktestConfig.mode }
  | t0 :: _ =>
    let returns := trades.map Trade.return_pct
    let exits := trades.map Trade.exit_value
    let equity := (cumsum exits).map (fun x => x + initial_capital - t0.exit_value)
    let peak := runningMax equity
    let drawdown := (equity.zip peak).map (fun p => (p.1 - p.2) / p.2)
    let hit_ratio :=
      ((trades.filter (fun t => decide (0 < t.pnl))).length : Rat) / (trades.length : Rat)
    let final_equity :=
      match equity_curve with
      | some curve =>
        match curve.getLast? with
        | some e => e.2.equity_usdc
        | none => exits.sum
      | none => exits.sum
    let final_balances :=
      match equity_curve with
      | some curve =>
        match curve.getLast? with
        | some e => some (snapshotBalances e.2)
        | none => none
      | none => none
    { total_return_pct := (final_equity - initial_capital) / initial_capital * 100
      sharpe_ratio := sharpeOf returns
      max_drawdown_pct := listMin drawdown * 100
      hit_ratio := hit_ratio
      total_trades := trades.length
      final_balances := final_balances
      mode := config.map BacktestConfig.mode }

/-- The `BacktestResult` dataclass of `engine.py` (ledger entries tagged
with their asset, see the header comment). -/
structure BacktestResult where
  trades : List (String × Trade)
  equity_curve : List (Int × Snapshot)
  kpis : KpiReport

/-- `BacktestEngine.run`: the final engine state packaged as a
`BacktestResult`, with `compute_kpis` applied to the untagged ledger, the
equity curve and the config. -/
noncomputable def run (signals : List Signal) (config : BacktestConfig)
    (initial_capital : Rat) : Except BtError BacktestResult :=
  (run_state signals config initial_capital).map (fun st =>
    { trades := st.trades
      equity_curve := st.equity_curve
      kpis := compute_kpis (st.trades.map Prod.snd) initial_capital
        (some st.equity_curve) (some config) })

/-- The market value of every still-open position of a state, each valued
at the most recent signal price at or before `t` (the quantity the final
equity snapshot adds to cash). -/
def openMarketValueSum (ss : List Signal) (st : EngineState) (t : Int) : Rat :=
  (st.positions.map (fun e =>
    match e.2 with
    | some p => p.market_value (latestPrice ss e.1 t p)
    | none => 0)).sum

/-- The allocation rule in the words of the spec: cash divided by the
number of distinct assets present anywhere in the full signal sequence,
capped at `initial_capital` over that same count when the mode is
`fixed`. -/
def specAllocation (cash initial_capital : Rat) (n : Nat) (mode : String) : Rat :=
  if mode = "fixed" then min (cash / (n : Rat)) (initial_capital / (n : Rat))
  else cash / (n : Rat)

/-! ### Association-list helper lemmas -/

theorem lookupA_setA_self {α β : Type} [DecidableEq α] (l : List (α × β)) (a : α) (b : β) :
    lookupA (setA l a b) a = some b := by
  induction l with
  | nil => simp [setA, lookupA]
  | cons e rest ih =>
    by_cases h : e.1 = a
    · simp [setA, h, lookupA]
    · simp [setA, h, lookupA, ih]

theorem lookupA_setA_ne {α β : Type} [DecidableEq α] (l : List (α × β)) (a a' : α) (b : β)
    (h : a ≠ a') : lookupA (setA l a b) a' = lookupA l a' := by
  induction l with
  | nil => simp [setA, lookupA, h]
  | cons e rest ih =>
    by_cases he : e.1 = a
    · simp [setA, he, lookupA, h]
    · by_cases he' : e.1 = a'
      · simp [setA, he, lookupA, he', Ne.symm h]
      · simp [setA, he, lookupA, he', ih]

theorem lookupA_append {α β : Type} [DecidableEq α] (l₁ l₂ : List (α × β)) (a : α) :
    lookupA (l₁ ++ l₂) a =
      match lookupA l₁ a with
      | some v => some v
      | none => lookupA l₂ a := by
  induction l₁ with
  | nil => simp [lookupA]
  | cons e rest ih =>
    by_cases he : e.1 = a
    · simp [lookupA, he]
    · simp [lookupA, he, ih]

theorem lookupA_isSome_iff_mem_keys {α β : Type} [DecidableEq α]
    (l : List (α × β)) (a : α) : (lookupA l a).isSome ↔ a ∈ l.map Prod.fst := by
  induction l with
  | nil => simp [lookupA]
  | cons e rest ih =>
    by_cases he : e.1 = a
    · simp [lookupA, he]
    · simp [lookupA, he, ih, Ne.symm he]

theorem lookupA_eq_none_of_not_mem_keys {α β : Type} [DecidableEq α]
    (l : List (α × β)) (a : α) (h : a ∉ l.map Prod.fst) : lookupA l a = none := by
  have := (lookupA_isSome_iff_mem_keys l a).not.2 h
  cases hl : lookupA l a with
  | none => rfl
  | some v => exact absurd (by simp [hl]) this

theorem mem_keys_of_lookupA_eq_some {α β : Type} [DecidableEq α]
    {l : List (α × β)} {a : α} {b : β} (h : lookupA l a = some b) : a ∈ l.map Prod.fst :=
  (lookupA_isSome_iff_mem_keys l a).1 (by simp [h])

theorem touchKey_of_mem {α β : Type} [DecidableEq α] (l : List (α × β)) (a : α) (d : β)
    (h : a ∈ l.map Prod.fst) : touchKey l a d = l := by
  unfold touchKey
  rw [if_pos ((lookupA_isSome_iff_mem_keys l a).2 h)]

theorem touchKey_of_not_mem {α β : Type} [DecidableEq α] (l : List (α × β)) (a : α) (d : β)
    (h : a ∉ l.map Prod.fst) : touchKey l a d = l ++ [(a, d)] := by
  unfold touchKey
  rw [if_neg (by simpa [lookupA_isSome_iff_mem_keys] using h)]

theorem lookupA_touchKey_self {α β : Type} [DecidableEq α] (l : List (α × β)) (a : α) (d : β) :
    lookupA (touchKey l a d) a = some ((lookupA l a).getD d) := by
  by_cases h : a ∈ l.map Prod.fst
  · rw [touchKey_of_mem l a d h]
    cases hl : lookupA l a with
    | none =>
      have hs := (lookupA_isSome_iff_mem_keys l a).2 h
      rw [hl] at hs
      simp at hs
    | some v => simp
  · rw [touchKey_of_not_mem l a d h, lookupA_append,
      lookupA_eq_none_of_not_mem_keys l a h]
    simp [lookupA]

theorem lookupA_touchKey_ne {α β : Type} [DecidableEq α] (l : List (α × β)) (a a' : α) (d : β)
    (h : a ≠ a') : lookupA (touchKey l a d) a' = lookupA l a' := by
  unfold touchKey
  split
  · rfl
  · rw [lookupA_append]
    cases hl : lookupA l a' with
    | some v => simp
    | none => simp [lookupA, h]

theorem keys_setA_of_mem {α β : Type} [DecidableEq α] (l : List (α × β)) (a : α) (b : β)
    (h : a ∈ l.map Prod.fst) : (setA l a b).map Prod.fst = l.map Prod.fst := by
  induction l with
  | nil => simp at h
  | cons e rest ih =>
    by_cases he : e.1 = a
    · simp [setA, he]
    · simp only [List.map_cons, List.mem_cons] at h
      rcases h with h | h
      · exact absurd h.symm he
      · simp [setA, he, ih h]

/-! ### Sorting -/

theorem sortSignals_eq_of_sorted {l : List Signal}
    (h : l.Pairwise (fun a b => a.timestamp ≤ b.timestamp)) : sortSignals l = l :=
  List.mergeSort_of_sorted (h.imp (fun hab => decide_eq_true hab))

/-! ### Metrics helper lemmas -/

theorem listSum_of_const {l : List Rat} {c : Rat} (h : ∀ x ∈ l, x = c) :
    l.sum = (l.length : Rat) * c := by
  induction l with
  | nil => simp
  | cons x xs ih =>
    have hx : x = c := h x (by simp)
    have ihs := ih (fun y hy => h y (by simp [hy]))
    simp only [List.sum_cons, List.length_cons, ihs, hx]
    push_cast
    ring

theorem listMean_of_const {l : List Rat} {c : Rat} (hne : l ≠ []) (h : ∀ x ∈ l, x = c) :
    listMean l = c := by
  have hlen : (l.length : Rat) ≠ 0 := by
    have h0 : l.length ≠ 0 := by
      intro hl
      exact hne (List.length_eq_zero.1 hl)
    exact_mod_cast h0
  unfold listMean
  rw [listSum_of_const h, mul_comm, mul_div_assoc, div_self hlen, mul_one]

theorem sampleVariance_of_const {l : List Rat} {c : Rat} (h2 : 2 ≤ l.length)
    (h : ∀ x ∈ l, x = c) : sampleVariance l = some 0 := by
  have hne : l ≠ [] := by
    intro hl
    rw [hl] at h2
    simp at h2
  unfold sampleVariance
  rw [if_neg (by omega)]
  have hz : (l.map (fun x => (x - listMean l) ^ 2)).sum = 0 := by
    apply List.sum_eq_zero
    intro y hy
    rcases List.mem_map.1 hy with ⟨x, hx, rfl⟩
    rw [h x hx, listMean_of_const hne h]
    ring
  rw [hz, zero_div]

/-- Claim C7 counterexample: at `price = 1`, `slippage = 0`, `fee = 0`
(both in `[0,1)`), the BUY-side composition leaves the price exactly
unchanged, so it does not strictly increase it as the claim states. -/
theorem claim_C7_counterexample :
    apply_fees (apply_slippage 1 0 .BUY) 0 .BUY = 1 ∧
    ¬ ((1 : Rat) < apply_fees (apply_slippage 1 0 .BUY) 0 .BUY) := by
  norm_num [apply_slippage, apply_fees]

/-- Claim C7 (amended): for any positive price and slippage, fee in
`[0,1)` that are not both zero, composing `apply_slippage` then
`apply_fees` with side BUY yields `price * (1+slippage) * (1+fee)` and
strictly increases the price; with side SELL it yields
`price * (1-slippage) * (1-fee)` and strictly decreases the price; and
with side CLOSE it leaves the price unchanged. -/
theorem claim_C7 (price slippage fee : Rat) (hp : 0 < price)
    (hs0 : 0 ≤ slippage) (hs1 : slippage < 1) (hf0 : 0 ≤ fee) (hf1 : fee < 1)
    (hsf : 0 < slippage + fee) :
    (apply_fees (apply_slippage price slippage .BUY) fee .BUY
        = price * (1 + slippage) * (1 + fee) ∧
      price < apply_fees (apply_slippage price slippage .BUY) fee .BUY) ∧
    (apply_fees (apply_slippage price slippage .SELL) fee .SELL
        = price * (1 - slippage) * (1 - fee) ∧
      apply_fees (apply_slippage price slippage .SELL) fee .SELL < price) ∧
    apply_fees (apply_slippage price slippage .CLOSE) fee .CLOSE = price := by
  refine ⟨⟨rfl, ?_⟩, ⟨rfl, ?_⟩, rfl⟩
  · show price < price * (1 + slippage) * (1 + fee)
    nlinarith [mul_pos hp hsf, mul_nonneg (mul_nonneg hp.le hs0) hf0]
  · show price * (1 - slippage) * (1 - fee) < price
    have key : 0 < slippage + fee - slippage * fee := by
      nlinarith [mul_pos (show (0 : Rat) < 1 - fee by linarith) hsf, sq_nonneg fee]
    nlinarith [mul_pos hp key]

/-- Witness for claim C7 at `price = 2`, `slippage = 1/10`, `fee = 0`. -/
theorem claim_C7_witness :
    (apply_fees (apply_slippage 2 (1/10) .BUY) 0 .BUY = 2 * (1 + 1/10) * (1 + 0) ∧
      (2 : Rat) < apply_fees (apply_slippage 2 (1/10) .BUY) 0 .BUY) ∧
    (apply_fees (apply_slippage 2 (1/10) .SELL) 0 .SELL = 2 * (1 - 1/10) * (1 - 0) ∧
      apply_fees (apply_slippage 2 (1/10) .SELL) 0 .SELL < 2) ∧
    apply_fees (apply_slippage 2 (1/10) .CLOSE) 0 .CLOSE = 2 :=
  claim_C7 2 (1/10) 0 (by norm_num) (by norm_num) (by norm_num) (by norm_num)
    (by norm_num) (by norm_num)

/-- Claim C6 counterexample: a ledger with exactly one trade has a `NaN`
sample standard deviation (`ddof = 1`), so the Sharpe ratio is `NaN`
(modelled `none`) — not a well-defined finite number as the claim
states. -/
theorem claim_C6_counterexample :
    KpiReport.sharpe_ratio
        (compute_kpis [⟨1, 2, .BUY, 100, 110, 10, 100, 10, 1100⟩] 1000 none none)
      = none := rfl

/-- Claim C6 (amended): for a ledger of at least two trades whose
per-trade returns are all identical, the sample standard deviation is 0,
and the Sharpe ratio `mean / (std + 1e-6)` is the well-defined finite
number `mean / 1e-6`; with exactly one trade the standard deviation and
hence the Sharpe ratio are `NaN`. -/
theorem claim_C6 (trades : List Trade) (initial_capital : Rat)
    (equity_curve : Option (List (Int × Snapshot))) (config : Option BacktestConfig)
    (c : Rat) (h2 : 2 ≤ trades.length) (hc : ∀ t ∈ trades, t.return_pct = c) :
    KpiReport.sharpe_ratio (compute_kpis trades initial_capital equity_curve config)
      = some ((c : Real) / (1e-6 : Real)) := by
  match trades, h2 with
  | t0 :: rest, h2 =>
    have hr : ∀ x ∈ (t0 :: rest).map Trade.return_pct, x = c := by
      intro x hx
      rcases List.mem_map.1 hx with ⟨t, ht, rfl⟩
      exact hc t ht
    have hlen : 2 ≤ ((t0 :: rest).map Trade.return_pct).length := by simpa using h2
    have hne : (t0 :: rest).map Trade.return_pct ≠ [] := by simp
    show sharpeOf ((t0 :: rest).map Trade.return_pct) = _
    unfold sharpeOf sampleStd
    rw [sampleVariance_of_const hlen hr]
    simp [Real.sqrt_zero]
    rw [show (t0.return_pct :: List.map Trade.return_pct rest)
          = List.map Trade.return_pct (t0 :: rest) from rfl,
        listMean_of_const hne hr]

/-- Witness for claim C6: two identical trades with return 10 give
Sharpe `10 / 1e-6`. -/
theorem claim_C6_witness :
    KpiReport.sharpe_ratio (compute_kpis [⟨1, 2, .BUY, 100, 110, 10, 100, 10, 1100⟩,
        ⟨1, 2, .BUY, 100, 110, 10, 100, 10, 1100⟩] 1000 none none)
      = some (((10 : Rat) : Real) / (1e-6 : Real)) :=
  claim_C6 _ 1000 none none 10 (by simp) (by simp)

/-- Claim C5: running the engine on an empty signal sequence returns an
empty trade ledger, an empty equity-snapshot series and the fixed
zero-valued KPI report with the echoed mode, without any error. -/
theorem claim_C5 (config : BacktestConfig) (initial_capital : Rat) :
    run [] config initial_capital = .ok
      { trades := []
        equity_curve := []
        kpis := { total_return_pct := 0, sharpe_ratio := some 0, max_drawdown_pct := 0,
                  hit_ratio := 0, total_trades := 0, final_balances := some [],
                  mode := some config.mode } } := by
  unfold run run_state sortSignals
  rw [List.mergeSort_nil]
  rfl

/-- Claim C2 (Scenario B): signals `[(1,BUY,100,X), (2,CLOSE,110,X)]` with
zero slippage and fees and initial capital 1000 open a position of
quantity 10, close it at exit price 110 producing exactly one trade with
`pnl = 100`, `return_pct = 10`, `exit_value = 1100`; final cash is 1100,
`total_return_pct` is 10 and `hit_ratio` is 1. -/
theorem claim_C2 :
    run_state [⟨1, .BUY, 100, "X"⟩, ⟨2, .CLOSE, 110, "X"⟩] { slippage := 0, fee := 0 } 1000
      = .ok { trades := [("X", ⟨1, 2, .BUY, 100, 110, 10, 100, 10, 1100⟩)],
              equity_curve := [(1, ⟨0, [("X", ⟨10, some 100, 1000⟩)], 1000⟩),
                               (2, ⟨1100, [("X", ⟨0, none, 0⟩)], 1100⟩)],
              positions := [("X", none)],
              asset_balances := [("X", 0)],
              cash_usdc := 1100 } ∧
    run [⟨1, .BUY, 100, "X"⟩, ⟨2, .CLOSE, 110, "X"⟩] { slippage := 0, fee := 0 } 1000
      = .ok { trades := [("X", ⟨1, 2, .BUY, 100, 110, 10, 100, 10, 1100⟩)],
              equity_curve := [(1, ⟨0, [("X", ⟨10, some 100, 1000⟩)], 1000⟩),
                               (2, ⟨1100, [("X", ⟨0, none, 0⟩)], 1100⟩)],
              kpis := { total_return_pct := 10, sharpe_ratio := none, max_drawdown_pct := 0,
                        hit_ratio := 1, total_trades := 1,
                        final_balances := some [("cash_usdc", 1100), ("X_balance", 0),
                                                ("X_value", 0)],
                        mode := some "compound" } } := by
  have hs : sortSignals [⟨1, .BUY, 100, "X"⟩, ⟨2, .CLOSE, 110, "X"⟩]
      = [⟨1, .BUY, 100, "X"⟩, ⟨2, .CLOSE, 110, "X"⟩] :=
    sortSignals_eq_of_sorted (by norm_num)
  constructor
  · unfold run_state
    rw [hs]
    norm_num [run_sorted, process_signal, open_position, close_position, update_equity,
      mkSnapshot, latestPrice, active_asset_count, touchKey, lookupA, setA,
      apply_slippage, apply_fees, Trade.from_position, initState, Position.market_value,
      force_close_all, force_close_last_position, EngineState.getPos, List.dedup,
      List.foldlM, Except.map, Except.pure, Except.bind, bind, pure]
  · unfold run run_state
    rw [hs]
    norm_num [run_sorted, process_signal, open_position, close_position, update_equity,
      mkSnapshot, latestPrice, active_asset_count, touchKey, lookupA, setA,
      apply_slippage, apply_fees, Trade.from_position, initState, Position.market_value,
      force_close_all, force_close_last_position, EngineState.getPos, List.dedup,
      List.foldlM, Except.map, Except.pure, Except.bind, bind, pure,
      compute_kpis, cumsum, cumsumFrom, runningMax, runningMaxFrom, listMin,
      snapshotBalances, sharpeOf, sampleStd, sampleVariance, List.filter]
    exact ⟨rfl, rfl⟩

/-! ### Characterizations of the engine's step functions -/

/-- The slippage-and-fee-adjusted price of a signal (the two nested calls
at the top of `_open_position` / `_close_position`). -/
def adjustedPrice (config : BacktestConfig) (signal : Signal) : Rat :=
  apply_fees (apply_slippage signal.price config.slippage signal.side) config.fee signal.side

theorem from_position_eq_error_iff (p : Position) (x : Rat) (t : Int) :
    (∃ e, Trade.from_position p x t = .error e) ↔ p.side = .CLOSE := by
  cases hs : p.side <;> simp [Trade.from_position, hs]

theorem from_position_fields {p : Position} {x : Rat} {t : Int} {tr : Trade}
    (h : Trade.from_position p x t = .ok tr) :
    tr.exit_value = x * p.quantity ∧ tr.quantity = p.quantity ∧ tr.side = p.side ∧
      tr.exit_time = t ∧ tr.entry_price = p.entry_price ∧ tr.exit_price = x := by
  cases hs : p.side <;> simp [Trade.from_position, hs] at h <;>
    (cases h; exact ⟨rfl, rfl, rfl, rfl, rfl, rfl⟩)

theorem from_position_ok_of_ne_close {p : Position} {x : Rat} {t : Int}
    (h : p.side ≠ .CLOSE) : ∃ tr, Trade.from_position p x t = .ok tr := by
  cases hs : p.side <;> simp [Trade.from_position, hs]
  exact absurd hs h

/-- Complete case analysis of a successful `_open_position` call. -/
theorem open_position_spec {ss : List Signal} {config : BacktestConfig}
    {initial_capital : Rat} {st st' : EngineState} {signal : Signal}
    (h : open_position ss config initial_capital st signal = .ok st') :
    ((∃ p, lookupA st.positions signal.asset = some (some p)) ∧
      st' = { st with positions := touchKey st.positions signal.asset none })
    ∨ ((lookupA st.positions signal.asset).join = none ∧
      active_asset_count ss ≠ 0 ∧ adjustedPrice config signal ≠ 0 ∧
      st' = { st with
        positions := setA (touchKey st.positions signal.asset none) signal.asset
          (some { side := signal.side, entry_price := adjustedPrice config signal,
                  quantity := specAllocation st.cash_usdc initial_capital
                      (active_asset_count ss) config.mode / adjustedPrice config signal,
                  entry_time := signal.timestamp }),
        asset_balances := setA st.asset_balances signal.asset
          (if signal.side = .BUY then
              specAllocation st.cash_usdc initial_capital
                (active_asset_count ss) config.mode / adjustedPrice config signal
            else
              -(specAllocation st.cash_usdc initial_capital
                (active_asset_count ss) config.mode / adjustedPrice config signal)),
        cash_usdc := st.cash_usdc -
          specAllocation st.cash_usdc initial_capital
            (active_asset_count ss) config.mode }) := by
  simp only [open_position] at h
  rw [lookupA_touchKey_self] at h
  have main : ((lookupA st.positions signal.asset).getD none) = none →
      (active_asset_count ss ≠ 0 ∧ adjustedPrice config signal ≠ 0 ∧
        st' = { st with
          positions := setA (touchKey st.positions signal.asset none) signal.asset
            (some { side := signal.side, entry_price := adjustedPrice config signal,
                    quantity := specAllocation st.cash_usdc initial_capital
                        (active_asset_count ss) config.mode / adjustedPrice config signal,
                    entry_time := signal.timestamp }),
          asset_balances := setA st.asset_balances signal.asset
            (if signal.side = .BUY then
                specAllocation st.cash_usdc initial_capital
                  (active_asset_count ss) config.mode / adjustedPrice config signal
              else
                -(specAllocation st.cash_usdc initial_capital
                  (active_asset_count ss) config.mode / adjustedPrice config signal)),
          cash_usdc := st.cash_usdc -
            specAllocation st.cash_usdc initial_capital
              (active_asset_count ss) config.mode }) := by
    intro hnone
    rw [hnone] at h
    simp only [Option.join, Option.some_bind, id_eq] at h
    by_cases hn : active_asset_count ss = 0
    · rw [if_pos hn] at h
      exact absurd h (by simp)
    · rw [if_neg hn] at h
      by_cases hz : apply_fees (apply_slippage signal.price config.slippage signal.side)
          config.fee signal.side = 0
      · rw [if_pos hz] at h
        exact absurd h (by simp)
      · rw [if_neg hz] at h
        injection h with h2
        subst h2
        refine ⟨hn, hz, ?_⟩
        simp only [specAllocation, adjustedPrice]
  cases hl : lookupA st.positions signal.asset with
  | some po =>
    cases po with
    | some p =>
      left
      rw [hl] at h
      simp only [Option.getD_some, Option.join, Option.some_bind, id_eq] at h
      injection h with h2
      subst h2
      exact ⟨⟨p, rfl⟩, rfl⟩
    | none =>
      right
      rw [hl] at main
      have hr := main (by simp)
      exact ⟨by simp [hl, Option.join], hr.1, hr.2.1, hr.2.2⟩
  | none =>
    right
    rw [hl] at main
    have hr := main (by simp)
    exact ⟨by simp [hl, Option.join], hr.1, hr.2.1, hr.2.2⟩

/-- Complete case analysis of a successful `_close_position` call. -/
theorem close_position_spec {config : BacktestConfig} {st st' : EngineState}
    {signal : Signal} (h : close_position config st signal = .ok st') :
    ((lookupA st.positions signal.asset).join = none ∧
      st' = { st with positions := touchKey st.positions signal.asset none })
    ∨ (∃ p trade, (lookupA st.positions signal.asset).join = some p ∧
      Trade.from_position p (adjustedPrice config signal) signal.timestamp = .ok trade ∧
      st' = { st with
        trades := st.trades ++ [(signal.asset, trade)],
        cash_usdc := st.cash_usdc + trade.exit_value,
        asset_balances := setA st.asset_balances signal.asset 0,
        positions := setA (touchKey st.positions signal.asset none) signal.asset none }) := by
  simp only [close_position] at h
  rw [lookupA_touchKey_self] at h
  cases hl : lookupA st.positions signal.asset with
  | some po =>
    rw [hl] at h
    cases po with
    | some p =>
      right
      simp only [Option.getD_some, Option.join, Option.some_bind, id_eq] at h
      cases hf : Trade.from_position p (adjustedPrice config signal) signal.timestamp with
      | error e =>
        rw [show apply_fees (apply_slippage signal.price config.slippage signal.side)
              config.fee signal.side = adjustedPrice config signal from rfl, hf] at h
        exact absurd h (by simp)
      | ok trade =>
        rw [show apply_fees (apply_slippage signal.price config.slippage signal.side)
              config.fee signal.side = adjustedPrice config signal from rfl, hf] at h
        injection h with h2
        subst h2
        exact ⟨p, trade, by simp [Option.join], hf, rfl⟩
    | none =>
      left
      simp only [Option.getD_some, Option.join, Option.some_bind, id_eq] at h
      injection h with h2
      subst h2
      exact ⟨by simp [Option.join], rfl⟩
  | none =>
    rw [hl] at h
    left
    simp only [Option.getD_none, Option.join, Option.some_bind, id_eq] at h
    injection h with h2
    subst h2
    exact ⟨by simp [Option.join], rfl⟩

/-- `_close_position` never fails when the stored position's side is not
CLOSE; in particular it never fails under the engine's side invariant. -/
theorem close_position_ok {config : BacktestConfig} {st : EngineState} {signal : Signal}
    (hside : ∀ p, (lookupA st.positions signal.asset).join = some p → p.side ≠ .CLOSE) :
    ∃ st', close_position config st signal = .ok st' := by
  simp only [close_position]
  rw [lookupA_touchKey_self]
  cases hl : lookupA st.positions signal.asset with
  | some po =>
    cases po with
    | some p =>
      simp only [Option.getD_some, Option.join, Option.some_bind, id_eq]
      rcases from_position_ok_of_ne_close
          (p := p) (x := adjustedPrice config signal) (t := signal.timestamp)
          (hside p (by rw [hl]; simp [Option.join])) with ⟨tr, htr⟩
      rw [show apply_fees (apply_slippage signal.price config.slippage signal.side)
            config.fee signal.side = adjustedPrice config signal from rfl, htr]
      exact ⟨_, rfl⟩
    | none =>
      simp only [Option.getD_some, Option.join, Option.some_bind, id_eq]
      exact ⟨_, rfl⟩
  | none =>
    simp only [Option.getD_none, Option.join, Option.some_bind, id_eq]
    exact ⟨_, rfl⟩

/-- `_open_position` never raises the invalid-side error. -/
theorem open_position_ne_invalidSide (ss : List Signal) (config : BacktestConfig)
    (initial_capital : Rat) (st : EngineState) (signal : Signal) :
    open_position ss config initial_capital st signal ≠ .error .invalidSide := by
  simp only [open_position]
  rw [lookupA_touchKey_self]
  cases hl : lookupA st.positions signal.asset with
  | some po =>
    cases po with
    | some p => simp [Option.join]
    | none =>
      simp only [Option.getD_some, Option.join, Option.some_bind, id_eq]
      split
      · simp
      · split <;> simp
  | none =>
    simp only [Option.getD_none, Option.join, Option.some_bind, id_eq]
    split
    · simp
    · split <;> simp

/-! ### A generic invariant lemma for `foldlM` over `Except` -/

theorem foldlM_except_induct {α σ ε : Type} {P : σ → Prop} (f : σ → α → Except ε σ) :
    ∀ (l : List α) (s : σ), P s →
      (∀ s' a s'', a ∈ l → P s' → f s' a = .ok s'' → P s'') →
      ∀ s', l.foldlM f s = .ok s' → P s' := by
  intro l
  induction l with
  | nil =>
    intro s hP _ s' h
    simp only [List.foldlM_nil] at h
    cases h
    exact hP
  | cons a l ih =>
    intro s hP hstep s' h
    rw [List.foldlM_cons] at h
    cases hfa : f s a with
    | error e =>
      rw [hfa] at h
      simp [Except.bind, bind] at h
    | ok s1 =>
      rw [hfa] at h
      have h' : l.foldlM f s1 = .ok s' := by
        simpa [Except.bind, bind] using h
      exact ih s1 (hstep s a s1 (by simp) hP hfa)
        (fun s2 b s3 hb => hstep s2 b s3 (by simp [hb])) s' h'

theorem foldlM_except_never {α σ ε : Type} {P : σ → Prop} {bad : ε} (f : σ → α → Except ε σ) :
    ∀ (l : List α) (s : σ), P s →
      (∀ s' a s'', a ∈ l → P s' → f s' a = .ok s'' → P s'') →
      (∀ s' a, a ∈ l → P s' → f s' a ≠ .error bad) →
      l.foldlM f s ≠ .error bad := by
  intro l
  induction l with
  | nil =>
    intro s _ _ _ h
    simp only [List.foldlM_nil] at h
    cases h
  | cons a l ih =>
    intro s hP hstep hne h
    rw [List.foldlM_cons] at h
    cases hfa : f s a with
    | error e =>
      rw [hfa] at h
      simp only [Except.bind, bind] at h
      cases h
      exact hne s a (by simp) hP hfa
    | ok s1 =>
      rw [hfa] at h
      have h' : l.foldlM f s1 = .error bad := by
        simpa [Except.bind, bind] using h
      exact ih s1 (hstep s a s1 (by simp) hP hfa)
        (fun s2 b s3 hb => hstep s2 b s3 (by simp [hb]))
        (fun s2 b hb => hne s2 b (by simp [hb])) h'

/-! ### The side invariant: every stored position was created from a
BUY or SELL signal -/

/-- Every position stored in the table has a side other than CLOSE (the
open-logic only stores the side of a BUY or SELL signal). -/
def SideInv (st : EngineState) : Prop :=
  ∀ a p, lookupA st.positions a = some (some p) → p.side ≠ .CLOSE

theorem sideInv_initState (initial_capital : Rat) : SideInv (initState initial_capital) := by
  intro a p hp
  simp [initState, lookupA] at hp

theorem sideInv_update_equity {ss : List Signal} {st : EngineState} {t : Int}
    (hinv : SideInv st) : SideInv (update_equity ss st t) := hinv

theorem sideInv_open {ss : List Signal} {config : BacktestConfig} {initial_capital : Rat}
    {st st' : EngineState} {signal : Signal} (hside : signal.side ≠ .CLOSE)
    (hinv : SideInv st) (h : open_position ss config initial_capital st signal = .ok st') :
    SideInv st' := by
  rcases open_position_spec h with ⟨⟨p, hp⟩, rfl⟩ | ⟨hnone, hn, hz, rfl⟩
  · intro a q hq
    rw [show touchKey st.positions signal.asset none = st.positions from
      touchKey_of_mem _ _ _ (mem_keys_of_lookupA_eq_some hp)] at hq
    exact hinv a q hq
  · intro a q hq
    by_cases ha : signal.asset = a
    · subst ha
      rw [lookupA_setA_self] at hq
      injection hq with h2
      injection h2 with h3
      rw [← h3]
      exact hside
    · rw [lookupA_setA_ne _ _ _ _ ha, lookupA_touchKey_ne _ _ _ _ ha] at hq
      exact hinv a q hq

theorem sideInv_close {config : BacktestConfig} {st st' : EngineState} {signal : Signal}
    (hinv : SideInv st) (h : close_position config st signal = .ok st') : SideInv st' := by
  rcases close_position_spec h with ⟨hnone, rfl⟩ | ⟨p, tr, hp, htr, rfl⟩
  · intro a q hq
    by_cases ha : signal.asset = a
    · subst ha
      rw [lookupA_touchKey_self] at hq
      injection hq with h2
      cases hlk : lookupA st.positions signal.asset with
      | none => rw [hlk] at h2; simp at h2
      | some v =>
        rw [hlk] at h2
        simp only [Option.getD_some] at h2
        exact hinv signal.asset q (by rw [hlk, h2])
    · rw [lookupA_touchKey_ne _ _ _ _ ha] at hq
      exact hinv a q hq
  · intro a q hq
    by_cases ha : signal.asset = a
    · subst ha
      rw [lookupA_setA_self] at hq
      simp at hq
    · rw [lookupA_setA_ne _ _ _ _ ha, lookupA_touchKey_ne _ _ _ _ ha] at hq
      exact hinv a q hq

theorem sideInv_process {ss : List Signal} {config : BacktestConfig} {initial_capital : Rat}
    {st st' : EngineState} {signal : Signal} (hinv : SideInv st)
    (h : process_signal ss config initial_capital st signal = .ok st') : SideInv st' := by
  unfold process_signal at h
  split at h
  case h_1 hside =>
    cases ho : open_position ss config initial_capital st signal with
    | error e => rw [ho] at h; simp [Except.map] at h
    | ok st1 =>
      rw [ho] at h
      simp only [Except.map] at h
      injection h with h2
      subst h2
      exact sideInv_update_equity (sideInv_open (by rw [hside]; intro hc; cases hc) hinv ho)
  case h_2 hside =>
    cases ho : open_position ss config initial_capital st signal with
    | error e => rw [ho] at h; simp [Except.map] at h
    | ok st1 =>
      rw [ho] at h
      simp only [Except.map] at h
      injection h with h2
      subst h2
      exact sideInv_update_equity (sideInv_open (by rw [hside]; intro hc; cases hc) hinv ho)
  case h_3 hside =>
    cases ho : close_position config st signal with
    | error e => rw [ho] at h; simp [Except.map] at h
    | ok st1 =>
      rw [ho] at h
      simp only [Except.map] at h
      injection h with h2
      subst h2
      exact sideInv_update_equity (sideInv_close hinv ho)

theorem process_ne_invalidSide {ss : List Signal} {config : BacktestConfig}
    {initial_capital : Rat} {st : EngineState} {signal : Signal} (hinv : SideInv st) :
    process_signal ss config initial_capital st signal ≠ .error .invalidSide := by
  unfold process_signal
  split
  case h_1 =>
    cases ho : open_position ss config initial_capital st signal with
    | error e =>
      simp only [Except.map]
      intro hc
      injection hc with h2
      subst h2
      exact open_position_ne_invalidSide ss config initial_capital st signal ho
    | ok st1 => simp [Except.map]
  case h_2 =>
    cases ho : open_position ss config initial_capital st signal with
    | error e =>
      simp only [Except.map]
      intro hc
      injection hc with h2
      subst h2
      exact open_position_ne_invalidSide ss config initial_capital st signal ho
    | ok st1 => simp [Except.map]
  case h_3 =>
    rcases @close_position_ok config st signal
        (fun p hp => hinv signal.asset p (Option.join_eq_some.1 hp)) with ⟨st1, hok⟩
    rw [hok]
    simp [Except.map]

/-- One iteration of the force-close loop at the end of `run`. -/
def forceCloseStep (config : BacktestConfig) (timestamp : Int) (price : Rat)
    (acc : EngineState) (asset : String) : Except BtError EngineState :=
  if (acc.getPos asset).isSome then
    force_close_last_position config acc asset timestamp price
  else .ok acc

theorem force_close_all_eq_foldlM (config : BacktestConfig) (st : EngineState)
    (timestamp : Int) (price : Rat) :
    force_close_all config st timestamp price
      = (st.positions.map Prod.fst).foldlM (forceCloseStep config timestamp price) st := rfl

theorem sideInv_forceCloseStep {config : BacktestConfig} {t : Int} {price : Rat}
    {acc acc' : EngineState} {asset : String} (hinv : SideInv acc)
    (h : forceCloseStep config t price acc asset = .ok acc') : SideInv acc' := by
  unfold forceCloseStep force_close_last_position at h
  split at h
  · exact sideInv_close hinv h
  · injection h with h2; subst h2; exact hinv

theorem forceCloseStep_ok {config : BacktestConfig} {t : Int} {price : Rat}
    {acc : EngineState} {asset : String} (hinv : SideInv acc) :
    ∃ acc', forceCloseStep config t price acc asset = .ok acc' := by
  unfold forceCloseStep force_close_last_position
  split
  · exact close_position_ok
      (fun p hp => hinv asset p (Option.join_eq_some.1 hp))
  · exact ⟨acc, rfl⟩

theorem run_sorted_ne_invalidSide (ss : List Signal) (config : BacktestConfig)
    (initial_capital : Rat) : run_sorted ss config initial_capital ≠ .error .invalidSide := by
  unfold run_sorted
  intro h
  cases hf : ss.foldlM (process_signal ss config initial_capital) (initState initial_capital) with
  | error e =>
    rw [hf] at h
    simp only [Except.bind, bind] at h
    injection h with h2
    subst h2
    exact foldlM_except_never (P := SideInv)
      (process_signal ss config initial_capital) ss (initState initial_capital)
      (sideInv_initState initial_capital)
      (fun s' a s'' _ hP hok => sideInv_process hP hok)
      (fun s' a _ hP => process_ne_invalidSide hP) hf
  | ok st =>
    have hinv : SideInv st := foldlM_except_induct (P := SideInv)
      (process_signal ss config initial_capital) ss (initState initial_capital)
      (sideInv_initState initial_capital)
      (fun s' a s'' _ hP hok => sideInv_process hP hok) st hf
    rw [hf] at h
    simp only [Except.bind, bind] at h
    cases hlast : ss.getLast? with
    | none => rw [hlast] at h; cases h
    | some lastSig =>
      rw [hlast] at h
      simp only [force_close_all_eq_foldlM] at h
      exact foldlM_except_never (P := SideInv)
        (forceCloseStep config lastSig.timestamp lastSig.price)
        (st.positions.map Prod.fst) st hinv
        (fun s' a s'' _ hP hok => sideInv_forceCloseStep hP hok)
        (fun s' a _ hP => by
          rcases @forceCloseStep_ok config lastSig.timestamp lastSig.price s' a hP
            with ⟨acc', hacc⟩
          rw [hacc]
          simp) h

/-- Claim C9: `Trade.from_position` raises exactly when the position's
side is neither BUY nor SELL (i.e. CLOSE), and no run of the engine can
ever reach that error, because the open-logic only stores BUY or SELL
sides. -/
theorem claim_C9 :
    (∀ (p : Position) (x : Rat) (t : Int),
      (∃ e, Trade.from_position p x t = .error e) ↔ p.side = .CLOSE)
    ∧ (∀ (signals : List Signal) (config : BacktestConfig) (initial_capital : Rat),
      run_state signals config initial_capital ≠ .error .invalidSide) := by
  constructor
  · exact from_position_eq_error_iff
  · intro signals config initial_capital
    exact run_sorted_ne_invalidSide (sortSignals signals) config initial_capital

/-! ### Claim C8: unread configuration fields -/

theorem open_position_congr {c1 c2 : BacktestConfig} (ss : List Signal)
    (initial_capital : Rat) (st : EngineState) (signal : Signal)
    (hs : c1.slippage = c2.slippage) (hf : c1.fee = c2.fee) (hm : c1.mode = c2.mode) :
    open_position ss c1 initial_capital st signal
      = open_position ss c2 initial_capital st signal := by
  unfold open_position
  rw [hs, hf, hm]

theorem close_position_congr {c1 c2 : BacktestConfig} (st : EngineState) (signal : Signal)
    (hs : c1.slippage = c2.slippage) (hf : c1.fee = c2.fee) :
    close_position c1 st signal = close_position c2 st signal := by
  unfold close_position
  rw [hs, hf]

theorem process_signal_congr {c1 c2 : BacktestConfig} (ss : List Signal)
    (initial_capital : Rat) (st : EngineState) (signal : Signal)
    (hs : c1.slippage = c2.slippage) (hf : c1.fee = c2.fee) (hm : c1.mode = c2.mode) :
    process_signal ss c1 initial_capital st signal
      = process_signal ss c2 initial_capital st signal := by
  rcases signal with ⟨ts, side, price, asset⟩
  cases side
  case BUY =>
    simp only [process_signal]
    rw [open_position_congr ss initial_capital st _ hs hf hm]
  case SELL =>
    simp only [process_signal]
    rw [open_position_congr ss initial_capital st _ hs hf hm]
  case CLOSE =>
    simp only [process_signal]
    rw [close_position_congr st _ hs hf]

theorem foldlM_except_congr {α σ ε : Type} {f g : σ → α → Except ε σ}
    (h : ∀ s a, f s a = g s a) :
    ∀ (l : List α) (s : σ), l.foldlM f s = l.foldlM g s := by
  intro l
  induction l with
  | nil => intro s; rfl
  | cons a l ih =>
    intro s
    rw [List.foldlM_cons, List.foldlM_cons, h s a]
    cases g s a with
    | error e => rfl
    | ok s1 => exact ih s1

theorem force_close_all_congr {c1 c2 : BacktestConfig} (st : EngineState)
    (timestamp : Int) (price : Rat)
    (hs : c1.slippage = c2.slippage) (hf : c1.fee = c2.fee) :
    force_close_all c1 st timestamp price = force_close_all c2 st timestamp price := by
  rw [force_close_all_eq_foldlM, force_close_all_eq_foldlM]
  apply foldlM_except_congr
  intro s a
  unfold forceCloseStep force_close_last_position
  split
  · rw [close_position_congr s _ hs hf]
  · rfl

theorem run_sorted_congr {c1 c2 : BacktestConfig} (ss : List Signal)
    (initial_capital : Rat)
    (hs : c1.slippage = c2.slippage) (hf : c1.fee = c2.fee) (hm : c1.mode = c2.mode) :
    run_sorted ss c1 initial_capital = run_sorted ss c2 initial_capital := by
  unfold run_sorted
  rw [foldlM_except_congr
    (fun s a => process_signal_congr ss initial_capital s a hs hf hm)]
  cases ss.foldlM (process_signal ss c2 initial_capital) (initState initial_capital) with
  | error e => rfl
  | ok st =>
    show (match ss.getLast? with
      | none => Except.ok st
      | some lastSig => force_close_all c1 st lastSig.timestamp lastSig.price) = _
    cases ss.getLast? with
    | none => rfl
    | some lastSig =>
      simp only
      rw [force_close_all_congr st lastSig.timestamp lastSig.price hs hf]
      rfl

theorem compute_kpis_congr {c1 c2 : BacktestConfig} (trades : List Trade)
    (initial_capital : Rat) (equity_curve : Option (List (Int × Snapshot)))
    (hm : c1.mode = c2.mode) :
    compute_kpis trades initial_capital equity_curve (some c1)
      = compute_kpis trades initial_capital equity_curve (some c2) := by
  cases trades with
  | nil => simp [compute_kpis, hm]
  | cons t0 rest => simp [compute_kpis, hm]

/-- Claim C8: two runs on the same signals and capital whose configs
differ only in `stop_loss_pct`, `take_profit_pct` and `allow_short`
produce identical trade ledgers, equity series and KPI reports; and a
SELL signal for a flat asset is accepted (a position is created)
regardless of `allow_short`, under the side conditions that rule out the
zero-division crash. -/
theorem claim_C8 :
    (∀ (signals : List Signal) (initial_capital : Rat) (c1 c2 : BacktestConfig),
      c1.slippage = c2.slippage → c1.fee = c2.fee → c1.mode = c2.mode →
      run signals c1 initial_capital = run signals c2 initial_capital)
    ∧ (∀ (ss : List Signal) (config : BacktestConfig) (initial_capital : Rat)
        (st : EngineState) (signal : Signal),
      signal.side = .SELL → st.getPos signal.asset = none →
      adjustedPrice config signal ≠ 0 → active_asset_count ss ≠ 0 →
      ∃ st', open_position ss config initial_capital st signal = .ok st' ∧
        (st'.getPos signal.asset).isSome) := by
  constructor
  · intro signals initial_capital c1 c2 hs hf hm
    unfold run run_state
    rw [run_sorted_congr (sortSignals signals) initial_capital hs hf hm]
    cases run_sorted (sortSignals signals) c2 initial_capital with
    | error e => rfl
    | ok st =>
      simp only [Except.map]
      rw [compute_kpis_congr (st.trades.map Prod.snd) initial_capital
        (some st.equity_curve) hm]
  · intro ss config initial_capital st signal hsell hpos hz hn
    simp only [open_position]
    rw [lookupA_touchKey_self]
    have hnone : (lookupA st.positions signal.asset).getD none = none := by
      rcases Option.join_eq_none.1 hpos with h | h <;> rw [h] <;> rfl
    rw [hnone]
    simp only [Option.join, Option.some_bind, id_eq]
    rw [if_neg hn, if_neg (show ¬(apply_fees (apply_slippage signal.price
      config.slippage signal.side) config.fee signal.side = 0) from hz)]
    refine ⟨_, rfl, ?_⟩
    show (lookupA _ signal.asset).join.isSome
    rw [lookupA_setA_self]
    simp [Option.join]

/-- Witness for claim C8: a run with the default config equals the run
with stop-loss, take-profit and short-permission changed, and a concrete
SELL open on a flat asset is accepted. -/
theorem claim_C8_witness :
    run [⟨1, .BUY, 100, "X"⟩] {} 1000
      = run [⟨1, .BUY, 100, "X"⟩]
          { stop_loss_pct := 1/2, take_profit_pct := 1/2, allow_short := true } 1000
    ∧ ∃ st', open_position [⟨1, .SELL, 100, "X"⟩] { allow_short := false } 1000
        (initState 1000) ⟨1, .SELL, 100, "X"⟩ = .ok st' ∧
        ((st'.getPos "X").isSome) :=
  ⟨claim_C8.1 [⟨1, .BUY, 100, "X"⟩] 1000 _ _ rfl rfl rfl,
    claim_C8.2 [⟨1, .SELL, 100, "X"⟩] { allow_short := false } 1000 (initState 1000)
      ⟨1, .SELL, 100, "X"⟩ rfl rfl
      (by norm_num [adjustedPrice, apply_slippage, apply_fees])
      (by decide)⟩

/-! ### Claim C4: the allocation rule -/

/-- Claim C4 counterexample: with two assets both opened at `t = 1` and
initial capital 1000, the claim says each open receives allocation 500
(quantity `500 / 100 = 5` at price 100); in fact the second open receives
only `250` (quantity `5/2`), because the first open already debited
cash. -/
theorem claim_C4_counterexample :
    (∃ st, run_state [⟨1, .BUY, 100, "X"⟩, ⟨1, .BUY, 100, "Y"⟩]
        { slippage := 0, fee := 0 } 1000 = .ok st ∧
      st.trades.map (fun e => (e.1, e.2.quantity)) = [("X", 5), ("Y", 5/2)]) ∧
    ¬ ((5 : Rat)/2 = 500/100) := by
  have hs : sortSignals [⟨1, .BUY, 100, "X"⟩, ⟨1, .BUY, 100, "Y"⟩]
      = [⟨1, .BUY, 100, "X"⟩, ⟨1, .BUY, 100, "Y"⟩] :=
    sortSignals_eq_of_sorted (by norm_num)
  constructor
  · refine ⟨{ trades := [("X", ⟨1, 1, .BUY, 100, 100, 5, 0, 0, 500⟩),
                         ("Y", ⟨1, 1, .BUY, 100, 100, 5/2, 0, 0, 250⟩)],
              equity_curve := [(1, ⟨250, [("X", ⟨5, some 100, 500⟩),
                                          ("Y", ⟨5/2, some 100, 250⟩)], 1000⟩)],
              positions := [("X", none), ("Y", none)],
              asset_balances := [("X", 0), ("Y", 0)],
              cash_usdc := 1000 }, ?_, by norm_num⟩
    have hc : active_asset_count [⟨1, .BUY, 100, "X"⟩, ⟨1, .BUY, 100, "Y"⟩] = 2 := by
      decide
    have hxy : ("X" : String) ≠ "Y" := by decide
    have hyx : ("Y" : String) ≠ "X" := by decide
    unfold run_state
    rw [hs]
    norm_num [run_sorted, process_signal, open_position, close_position, update_equity,
      mkSnapshot, latestPrice, hc, hxy, hyx, touchKey, lookupA, setA,
      apply_slippage, apply_fees, Trade.from_position, initState, Position.market_value,
      force_close_all, force_close_last_position, EngineState.getPos, List.find?,
      List.foldlM, Except.map, Except.pure, Except.bind, bind, pure]
  · norm_num

/-- Claim C4 (amended): whenever an open signal is accepted for an asset
with no existing position and the open succeeds, the cash debited is
`cash / (number of distinct assets in the full signal sequence)`, capped
at `initial_capital / (that same count)` when the mode is `fixed`
(`specAllocation`), and the stored quantity is that allocation divided by
the slippage-and-fee-adjusted entry price.  In the two-asset scenario at
`t = 1` with initial capital 1000 the first open receives 500 and the
second only 250 (not 500 each). -/
theorem claim_C4 :
    (∀ (ss : List Signal) (config : BacktestConfig) (initial_capital : Rat)
        (st st' : EngineState) (signal : Signal),
      st.getPos signal.asset = none →
      open_position ss config initial_capital st signal = .ok st' →
      st'.cash_usdc = st.cash_usdc -
          specAllocation st.cash_usdc initial_capital (active_asset_count ss) config.mode ∧
      st'.getPos signal.asset = some
        { side := signal.side, entry_price := adjustedPrice config signal,
          quantity := specAllocation st.cash_usdc initial_capital
              (active_asset_count ss) config.mode / adjustedPrice config signal,
          entry_time := signal.timestamp })
    ∧ (∃ st, run_state [⟨1, .BUY, 100, "X"⟩, ⟨1, .BUY, 100, "Y"⟩]
        { slippage := 0, fee := 0 } 1000 = .ok st ∧
      st.trades.map (fun e => (e.1, e.2.quantity, e.2.entry_price))
        = [("X", 5, 100), ("Y", 5/2, 100)] ∧
      (5 : Rat) * 100 = 500 ∧ (5 : Rat)/2 * 100 = 250) := by
  constructor
  · intro ss config initial_capital st st' signal hpos h
    rcases open_position_spec h with ⟨⟨p, hp⟩, rfl⟩ | ⟨hnone, hn, hz, rfl⟩
    · exfalso
      unfold EngineState.getPos at hpos
      rw [hp] at hpos
      simp [Option.join] at hpos
    · constructor
      · rfl
      · show (lookupA _ signal.asset).join = _
        rw [lookupA_setA_self]
        simp [Option.join]
  · have hs : sortSignals [⟨1, .BUY, 100, "X"⟩, ⟨1, .BUY, 100, "Y"⟩]
        = [⟨1, .BUY, 100, "X"⟩, ⟨1, .BUY, 100, "Y"⟩] :=
      sortSignals_eq_of_sorted (by norm_num)
    refine ⟨{ trades := [("X", ⟨1, 1, .BUY, 100, 100, 5, 0, 0, 500⟩),
                         ("Y", ⟨1, 1, .BUY, 100, 100, 5/2, 0, 0, 250⟩)],
              equity_curve := [(1, ⟨250, [("X", ⟨5, some 100, 500⟩),
                                          ("Y", ⟨5/2, some 100, 250⟩)], 1000⟩)],
              positions := [("X", none), ("Y", none)],
              asset_balances := [("X", 0), ("Y", 0)],
              cash_usdc := 1000 }, ?_, by norm_num, by norm_num, by norm_num⟩
    have hc : active_asset_count [⟨1, .BUY, 100, "X"⟩, ⟨1, .BUY, 100, "Y"⟩] = 2 := by
      decide
    have hxy : ("X" : String) ≠ "Y" := by decide
    have hyx : ("Y" : String) ≠ "X" := by decide
    unfold run_state
    rw [hs]
    norm_num [run_sorted, process_signal, open_position, close_position, update_equity,
      mkSnapshot, latestPrice, hc, hxy, hyx, touchKey, lookupA, setA,
      apply_slippage, apply_fees, Trade.from_position, initState, Position.market_value,
      force_close_all, force_close_last_position, EngineState.getPos, List.find?,
      List.foldlM, Except.map, Except.pure, Except.bind, bind, pure]

/-- Witness for claim C4: opening "X" from the initial state of
Scenario A (one asset, capital 1000, zero costs) debits the allocation
`1000 / 1 = 1000` and stores quantity `1000 / 100 = 10`. -/
theorem claim_C4_witness :
    (initState 1000).getPos "X" = none ∧
    ∃ st', open_position [⟨1, .BUY, 100, "X"⟩] { slippage := 0, fee := 0 } 1000
        (initState 1000) ⟨1, .BUY, 100, "X"⟩ = .ok st' ∧
      st'.cash_usdc = (initState 1000).cash_usdc -
        specAllocation (initState 1000).cash_usdc 1000
          (active_asset_count [⟨1, .BUY, 100, "X"⟩]) "compound" ∧
      st'.getPos "X" = some
        { side := .BUY,
          entry_price := adjustedPrice { slippage := 0, fee := 0 } ⟨1, .BUY, 100, "X"⟩,
          quantity := specAllocation (initState 1000).cash_usdc 1000
              (active_asset_count [⟨1, .BUY, 100, "X"⟩]) "compound"
            / adjustedPrice { slippage := 0, fee := 0 } ⟨1, .BUY, 100, "X"⟩,
          entry_time := 1 } := by
  have hopen : ∃ st', open_position [⟨1, .BUY, 100, "X"⟩] { slippage := 0, fee := 0 } 1000
      (initState 1000) ⟨1, .BUY, 100, "X"⟩ = .ok st' := by
    refine ⟨{ trades := [], equity_curve := [],
              positions := [("X", some ⟨.BUY, 100, 10, 1⟩)],
              asset_balances := [("X", 10)], cash_usdc := 0 }, ?_⟩
    norm_num [open_position, touchKey, lookupA, setA, initState, active_asset_count,
      List.dedup, apply_slippage, apply_fees]
  rcases hopen with ⟨st', hst⟩
  exact ⟨rfl, st', hst,
    (claim_C4.1 [⟨1, .BUY, 100, "X"⟩] { slippage := 0, fee := 0 } 1000
      (initState 1000) st' ⟨1, .BUY, 100, "X"⟩ rfl hst).1,
    (claim_C4.1 [⟨1, .BUY, 100, "X"⟩] { slippage := 0, fee := 0 } 1000
      (initState 1000) st' ⟨1, .BUY, 100, "X"⟩ rfl hst).2⟩

/-- Claim C10 counterexample: prices are non-negative and the initial
capital is non-negative, yet with `slippage = 2` a SELL open stores a
negative quantity and the force-close drives cash to `-1000 < 0`. -/
theorem claim_C10_counterexample :
    (∃ st, run_state [⟨1, .SELL, 100, "X"⟩] { slippage := 2, fee := 0 } 1000 = .ok st ∧
      st.cash_usdc = -1000) ∧ ¬ (0 ≤ (-1000 : Rat)) := by
  have hs : sortSignals [⟨1, .SELL, 100, "X"⟩] = [⟨1, .SELL, 100, "X"⟩] :=
    sortSignals_eq_of_sorted (by norm_num)
  constructor
  · refine ⟨{ trades := [("X", ⟨1, 1, .SELL, -100, 100, -10, 2000, 200, -1000⟩)],
              equity_curve := [(1, ⟨0, [("X", ⟨-10, some 100, -1000⟩)], -1000⟩)],
              positions := [("X", none)],
              asset_balances := [("X", 0)],
              cash_usdc := -1000 }, ?_, by norm_num⟩
    unfold run_state
    rw [hs]
    norm_num [run_sorted, process_signal, open_position, close_position, update_equity,
      mkSnapshot, latestPrice, active_asset_count, touchKey, lookupA, setA,
      apply_slippage, apply_fees, Trade.from_position, initState, Position.market_value,
      force_close_all, force_close_last_position, EngineState.getPos, List.dedup,
      List.foldlM, Except.map, Except.pure, Except.bind, bind, pure]
  · norm_num

/-! ### Claim C10: cash non-negativity -/

/-- Cash is non-negative and every stored position has non-negative
quantity. -/
def CashInv (st : EngineState) : Prop :=
  0 ≤ st.cash_usdc ∧
    ∀ a p, lookupA st.positions a = some (some p) → 0 ≤ p.quantity

theorem cashInv_initState {initial_capital : Rat} (h : 0 ≤ initial_capital) :
    CashInv (initState initial_capital) := by
  refine ⟨h, ?_⟩
  intro a p hp
  simp [initState, lookupA] at hp

theorem adjustedPrice_nonneg {config : BacktestConfig} {signal : Signal}
    (hp : 0 ≤ signal.price) (hs0 : 0 ≤ config.slippage) (hs1 : config.slippage ≤ 1)
    (hf0 : 0 ≤ config.fee) (hf1 : config.fee ≤ 1) :
    0 ≤ adjustedPrice config signal := by
  unfold adjustedPrice apply_slippage apply_fees
  cases signal.side
  case BUY =>
    simp only
    have h1 : (0 : Rat) ≤ 1 + config.slippage := by linarith
    have h2 : (0 : Rat) ≤ 1 + config.fee := by linarith
    exact mul_nonneg (mul_nonneg hp h1) h2
  case SELL =>
    simp only
    have h1 : (0 : Rat) ≤ 1 - config.slippage := by linarith
    have h2 : (0 : Rat) ≤ 1 - config.fee := by linarith
    exact mul_nonneg (mul_nonneg hp h1) h2
  case CLOSE => simpa using hp

theorem specAllocation_nonneg {cash initial_capital : Rat} {n : Nat} {mode : String}
    (hc : 0 ≤ cash) (hi : 0 ≤ initial_capital) :
    0 ≤ specAllocation cash initial_capital n mode := by
  unfold specAllocation
  have h1 : 0 ≤ cash / (n : Rat) := div_nonneg hc (by positivity)
  have h2 : 0 ≤ initial_capital / (n : Rat) := div_nonneg hi (by positivity)
  split
  · exact le_min h1 h2
  · exact h1

theorem specAllocation_le_cash {cash initial_capital : Rat} {n : Nat} {mode : String}
    (hc : 0 ≤ cash) (hn : n ≠ 0) :
    specAllocation cash initial_capital n mode ≤ cash := by
  unfold specAllocation
  have h1 : (1 : Rat) ≤ (n : Rat) := by
    have : 1 ≤ n := Nat.one_le_iff_ne_zero.2 hn
    exact_mod_cast this
  have h2 : cash / (n : Rat) ≤ cash := div_le_self hc h1
  split
  · exact le_trans (min_le_left _ _) h2
  · exact h2

theorem cashInv_update_equity {ss : List Signal} {st : EngineState} {t : Int}
    (hinv : CashInv st) : CashInv (update_equity ss st t) := hinv

theorem cashInv_open {ss : List Signal} {config : BacktestConfig} {initial_capital : Rat}
    {st st' : EngineState} {signal : Signal}
    (hi : 0 ≤ initial_capital) (hp : 0 ≤ signal.price)
    (hs0 : 0 ≤ config.slippage) (hs1 : config.slippage ≤ 1)
    (hf0 : 0 ≤ config.fee) (hf1 : config.fee ≤ 1)
    (hinv : CashInv st) (h : open_position ss config initial_capital st signal = .ok st') :
    CashInv st' := by
  rcases open_position_spec h with ⟨⟨p, hpp⟩, rfl⟩ | ⟨hnone, hn, hz, rfl⟩
  · refine ⟨hinv.1, ?_⟩
    intro a q hq
    rw [show touchKey st.positions signal.asset none = st.positions from
      touchKey_of_mem _ _ _ (mem_keys_of_lookupA_eq_some hpp)] at hq
    exact hinv.2 a q hq
  · constructor
    · show 0 ≤ st.cash_usdc - specAllocation st.cash_usdc initial_capital
        (active_asset_count ss) config.mode
      have := @specAllocation_le_cash st.cash_usdc initial_capital
        (active_asset_count ss) config.mode hinv.1 hn
      linarith
    · intro a q hq
      by_cases ha : signal.asset = a
      · subst ha
        rw [lookupA_setA_self] at hq
        injection hq with h2
        injection h2 with h3
        rw [← h3]
        show 0 ≤ specAllocation st.cash_usdc initial_capital
          (active_asset_count ss) config.mode / adjustedPrice config signal
        exact div_nonneg (specAllocation_nonneg hinv.1 hi)
          (adjustedPrice_nonneg hp hs0 hs1 hf0 hf1)
      · rw [lookupA_setA_ne _ _ _ _ ha, lookupA_touchKey_ne _ _ _ _ ha] at hq
        exact hinv.2 a q hq

theorem cashInv_close {config : BacktestConfig} {st st' : EngineState} {signal : Signal}
    (hx : 0 ≤ adjustedPrice config signal)
    (hinv : CashInv st) (h : close_position config st signal = .ok st') : CashInv st' := by
  rcases close_position_spec h with ⟨hnone, rfl⟩ | ⟨p, tr, hpp, htr, rfl⟩
  · refine ⟨hinv.1, ?_⟩
    intro a q hq
    by_cases ha : signal.asset = a
    · subst ha
      rw [lookupA_touchKey_self] at hq
      injection hq with h2
      cases hlk : lookupA st.positions signal.asset with
      | none => rw [hlk] at h2; simp at h2
      | some v =>
        rw [hlk] at h2
        simp only [Option.getD_some] at h2
        exact hinv.2 signal.asset q (by rw [hlk, h2])
    · rw [lookupA_touchKey_ne _ _ _ _ ha] at hq
      exact hinv.2 a q hq
  · have hqty : 0 ≤ p.quantity := hinv.2 signal.asset p (Option.join_eq_some.1 hpp)
    have hev : tr.exit_value = adjustedPrice config signal * p.quantity :=
      (from_position_fields htr).1
    constructor
    · show 0 ≤ st.cash_usdc + tr.exit_value
      rw [hev]
      have := mul_nonneg hx hqty
      have := hinv.1
      linarith
    · intro a q hq
      by_cases ha : signal.asset = a
      · subst ha
        rw [lookupA_setA_self] at hq
        simp at hq
      · rw [lookupA_setA_ne _ _ _ _ ha, lookupA_touchKey_ne _ _ _ _ ha] at hq
        exact hinv.2 a q hq

theorem cashInv_process {ss : List Signal} {config : BacktestConfig} {initial_capital : Rat}
    {st st' : EngineState} {signal : Signal}
    (hi : 0 ≤ initial_capital) (hp : 0 ≤ signal.price)
    (hs0 : 0 ≤ config.slippage) (hs1 : config.slippage ≤ 1)
    (hf0 : 0 ≤ config.fee) (hf1 : config.fee ≤ 1)
    (hinv : CashInv st)
    (h : process_signal ss config initial_capital st signal = .ok st') : CashInv st' := by
  unfold process_signal at h
  split at h
  case h_1 =>
    cases ho : open_position ss config initial_capital st signal with
    | error e => rw [ho] at h; simp [Except.map] at h
    | ok st1 =>
      rw [ho] at h
      simp only [Except.map] at h
      injection h with h2
      subst h2
      exact cashInv_update_equity (cashInv_open hi hp hs0 hs1 hf0 hf1 hinv ho)
  case h_2 =>
    cases ho : open_position ss config initial_capital st signal with
    | error e => rw [ho] at h; simp [Except.map] at h
    | ok st1 =>
      rw [ho] at h
      simp only [Except.map] at h
      injection h with h2
      subst h2
      exact cashInv_update_equity (cashInv_open hi hp hs0 hs1 hf0 hf1 hinv ho)
  case h_3 hside =>
    cases ho : close_position config st signal with
    | error e => rw [ho] at h; simp [Except.map] at h
    | ok st1 =>
      rw [ho] at h
      simp only [Except.map] at h
      injection h with h2
      subst h2
      refine cashInv_update_equity (cashInv_close ?_ hinv ho)
      unfold adjustedPrice apply_slippage apply_fees
      rw [hside]
      simpa using hp

theorem cashInv_forceCloseStep {config : BacktestConfig} {t : Int} {price : Rat}
    {acc acc' : EngineState} {asset : String} (hpr : 0 ≤ price) (hinv : CashInv acc)
    (h : forceCloseStep config t price acc asset = .ok acc') : CashInv acc' := by
  unfold forceCloseStep force_close_last_position at h
  split at h
  · refine cashInv_close ?_ hinv h
    unfold adjustedPrice apply_slippage apply_fees
    simpa using hpr
  · injection h with h2; subst h2; exact hinv

/-- Claim C10 (amended): with slippage and fee in `[0,1]`, non-negative
prices and non-negative initial capital, cash is non-negative after every
processed signal (every prefix of the sorted sequence whose fold
succeeds) and after the final force-closes. -/
theorem claim_C10 (signals : List Signal) (config : BacktestConfig)
    (initial_capital : Rat)
    (hi : 0 ≤ initial_capital) (hps : ∀ s ∈ signals, 0 ≤ s.price)
    (hs0 : 0 ≤ config.slippage) (hs1 : config.slippage ≤ 1)
    (hf0 : 0 ≤ config.fee) (hf1 : config.fee ≤ 1) :
    (∀ (l1 l2 : List Signal) (st : EngineState),
      sortSignals signals = l1 ++ l2 →
      l1.foldlM (process_signal (sortSignals signals) config initial_capital)
        (initState initial_capital) = .ok st →
      0 ≤ st.cash_usdc)
    ∧ (∀ st, run_state signals config initial_capital = .ok st → 0 ≤ st.cash_usdc) := by
  have hmem : ∀ s ∈ sortSignals signals, 0 ≤ s.price := by
    have hperm : List.Perm (sortSignals signals) signals :=
      List.mergeSort_perm signals (fun a b => decide (a.timestamp ≤ b.timestamp))
    intro s hsmem
    exact hps s (hperm.mem_iff.1 hsmem)
  constructor
  · intro l1 l2 st hsplit hfold
    have hmem1 : ∀ s ∈ l1, 0 ≤ s.price := by
      intro s hsmem
      exact hmem s (by rw [hsplit]; exact List.mem_append_left l2 hsmem)
    have hinv : CashInv st :=
      foldlM_except_induct (P := CashInv)
        (process_signal (sortSignals signals) config initial_capital) l1
        (initState initial_capital) (cashInv_initState hi)
        (fun s' a s'' ha hP hok =>
          cashInv_process hi (hmem1 a ha) hs0 hs1 hf0 hf1 hP hok) st hfold
    exact hinv.1
  · intro st h
    unfold run_state run_sorted at h
    cases hf : (sortSignals signals).foldlM
        (process_signal (sortSignals signals) config initial_capital)
        (initState initial_capital) with
    | error e => rw [hf] at h; simp [Except.bind, bind] at h
    | ok st1 =>
      have hinv1 : CashInv st1 :=
        foldlM_except_induct (P := CashInv)
          (process_signal (sortSignals signals) config initial_capital)
          (sortSignals signals)
          (initState initial_capital) (cashInv_initState hi)
          (fun s' a s'' ha hP hok =>
            cashInv_process hi (hmem a ha) hs0 hs1 hf0 hf1 hP hok) st1 hf
      rw [hf] at h
      simp only [Except.bind, bind] at h
      cases hlast : (sortSignals signals).getLast? with
      | none =>
        rw [hlast] at h
        injection h with h2
        subst h2
        exact hinv1.1
      | some lastSig =>
        rw [hlast] at h
        simp only [force_close_all_eq_foldlM] at h
        have hlp : 0 ≤ lastSig.price :=
          hmem lastSig (List.mem_of_mem_getLast? (by simp [hlast]))
        have hinv : CashInv st :=
          foldlM_except_induct (P := CashInv)
            (forceCloseStep config lastSig.timestamp lastSig.price)
            (st1.positions.map Prod.fst) st1 hinv1
            (fun s' a s'' _ hP hok => cashInv_forceCloseStep hlp hP hok) st h
        exact hinv.1

/-- Witness for claim C10 on Scenario A (one BUY signal, default-free
costs): the final cash balance is non-negative. -/
theorem claim_C10_witness :
    ∃ st, run_state [⟨1, .BUY, 100, "X"⟩] { slippage := 0, fee := 0 } 1000 = .ok st ∧
      0 ≤ st.cash_usdc := by
  have hs : sortSignals [⟨1, .BUY, 100, "X"⟩] = [⟨1, .BUY, 100, "X"⟩] :=
    sortSignals_eq_of_sorted (by norm_num)
  have hrun : run_state [⟨1, .BUY, 100, "X"⟩] { slippage := 0, fee := 0 } 1000
      = .ok { trades := [("X", ⟨1, 1, .BUY, 100, 100, 10, 0, 0, 1000⟩)],
              equity_curve := [(1, ⟨0, [("X", ⟨10, some 100, 1000⟩)], 1000⟩)],
              positions := [("X", none)],
              asset_balances := [("X", 0)],
              cash_usdc := 1000 } := by
    unfold run_state
    rw [hs]
    norm_num [run_sorted, process_signal, open_position, close_position, update_equity,
      mkSnapshot, latestPrice, active_asset_count, touchKey, lookupA, setA,
      apply_slippage, apply_fees, Trade.from_position, initState, Position.market_value,
      force_close_all, force_close_last_position, EngineState.getPos, List.dedup,
      List.foldlM, Except.map, Except.pure, Except.bind, bind, pure]
  refine ⟨_, hrun, ?_⟩
  exact (claim_C10 [⟨1, .BUY, 100, "X"⟩] { slippage := 0, fee := 0 } 1000
    (by norm_num) (by intro s hsm; simp at hsm; rw [hsm]; norm_num)
    (by norm_num) (by norm_num) (by norm_num) (by norm_num)).2 _ hrun

/-! ### Claim C3: force-close completeness and per-asset trade counts -/

/-- The number of ledger entries tagged with a given asset. -/
def countTag (l : List (String × Trade)) (a : String) : Nat :=
  (l.filter (fun e => decide (e.1 = a))).length

/-- Per-asset trade count of a state. -/
def tradeCountA (st : EngineState) (a : String) : Nat :=
  countTag st.trades a

theorem countTag_append_single (l : List (String × Trade)) (x : String) (tr : Trade)
    (a : String) :
    countTag (l ++ [(x, tr)]) a = countTag l a + (if x = a then 1 else 0) := by
  unfold countTag
  rw [List.filter_append]
  by_cases hx : x = a <;> simp [hx, List.filter]

/-- A spec-side abstraction of the engine: per asset, whether a position
is currently open, and how many CLOSE signals arrived while a position
was open (accepted closes). -/
def trackStep (acc : (String → Bool) × (String → Nat)) (s : Signal) :
    (String → Bool) × (String → Nat) :=
  match s.side with
  | .CLOSE =>
      if acc.1 s.asset then
        (fun b => if b = s.asset then false else acc.1 b,
         fun b => if b = s.asset then acc.2 b + 1 else acc.2 b)
      else acc
  | _ =>
      if acc.1 s.asset then acc
      else (fun b => if b = s.asset then true else acc.1 b, acc.2)

/-- The tracker over a whole (sorted) signal sequence. -/
def track (ss : List Signal) : (String → Bool) × (String → Nat) :=
  ss.foldl trackStep (fun _ => false, fun _ => 0)

/-- The refinement relation between the engine state and the tracker. -/
def TrackInv (st : EngineState) (tr : (String → Bool) × (String → Nat)) : Prop :=
  (∀ a, (st.getPos a).isSome = tr.1 a) ∧ (∀ a, tradeCountA st a = tr.2 a)

theorem getPos_touchKey (l : List (String × Option Position)) (a b : String) :
    (lookupA (touchKey l a none) b).join = (lookupA l b).join := by
  by_cases hb : a = b
  · subst hb
    rw [lookupA_touchKey_self]
    cases hl : lookupA l a with
    | none => simp [Option.join]
    | some v => simp [Option.join]
  · rw [lookupA_touchKey_ne _ _ _ _ hb]

theorem lookupA_insert_join (l : List (String × Option Position)) (x : String)
    (P : Position) (a : String) :
    (lookupA (setA (touchKey l x none) x (some P)) a).join
      = if a = x then some P else (lookupA l a).join := by
  by_cases ha : a = x
  · subst ha
    rw [lookupA_setA_self, if_pos rfl]
    simp [Option.join]
  · rw [lookupA_setA_ne _ _ _ _ (fun hh => ha hh.symm),
      lookupA_touchKey_ne _ _ _ _ (fun hh => ha hh.symm), if_neg ha]

theorem lookupA_remove_join (l : List (String × Option Position)) (x : String)
    (a : String) :
    (lookupA (setA (touchKey l x none) x none) a).join
      = if a = x then none else (lookupA l a).join := by
  by_cases ha : a = x
  · subst ha
    rw [lookupA_setA_self, if_pos rfl]
    simp [Option.join]
  · rw [lookupA_setA_ne _ _ _ _ (fun hh => ha hh.symm),
      lookupA_touchKey_ne _ _ _ _ (fun hh => ha hh.symm), if_neg ha]

theorem trackStep_eq_open_skip {tr : (String → Bool) × (String → Nat)} {s : Signal}
    (h1 : s.side ≠ .CLOSE) (h2 : tr.1 s.asset = true) : trackStep tr s = tr := by
  cases hs : s.side
  case BUY => simp [trackStep, hs, h2]
  case SELL => simp [trackStep, hs, h2]
  case CLOSE => exact absurd hs h1

theorem trackStep_eq_open {tr : (String → Bool) × (String → Nat)} {s : Signal}
    (h1 : s.side ≠ .CLOSE) (h2 : tr.1 s.asset = false) :
    trackStep tr s = (fun b => if b = s.asset then true else tr.1 b, tr.2) := by
  cases hs : s.side
  case BUY => simp [trackStep, hs, h2]
  case SELL => simp [trackStep, hs, h2]
  case CLOSE => exact absurd hs h1

theorem trackStep_eq_close_skip {tr : (String → Bool) × (String → Nat)} {s : Signal}
    (h1 : s.side = .CLOSE) (h2 : tr.1 s.asset = false) : trackStep tr s = tr := by
  simp [trackStep, h1, h2]

theorem trackStep_eq_close {tr : (String → Bool) × (String → Nat)} {s : Signal}
    (h1 : s.side = .CLOSE) (h2 : tr.1 s.asset = true) :
    trackStep tr s = (fun b => if b = s.asset then false else tr.1 b,
      fun b => if b = s.asset then tr.2 b + 1 else tr.2 b) := by
  simp [trackStep, h1, h2]

theorem trackInv_initState (initial_capital : Rat) :
    TrackInv (initState initial_capital) (fun _ => false, fun _ => 0) := by
  constructor
  · intro a
    simp [initState, EngineState.getPos, lookupA, Option.join]
  · intro a
    simp [initState, tradeCountA, countTag]

theorem trackInv_update_equity {ss : List Signal} {st : EngineState} {t : Int}
    {tr : (String → Bool) × (String → Nat)} (hinv : TrackInv st tr) :
    TrackInv (update_equity ss st t) tr := hinv

theorem trackInv_open {ss : List Signal} {config : BacktestConfig}
    {initial_capital : Rat} {st st' : EngineState} {signal : Signal}
    {tr : (String → Bool) × (String → Nat)} (hside : signal.side ≠ .CLOSE)
    (hinv : TrackInv st tr)
    (h : open_position ss config initial_capital st signal = .ok st') :
    TrackInv st' (trackStep tr signal) := by
  rcases open_position_spec h with ⟨⟨p, hp⟩, rfl⟩ | ⟨hnone, hn, hz, rfl⟩
  · have hopen : tr.1 signal.asset = true := by
      rw [← hinv.1 signal.asset]
      show (lookupA st.positions signal.asset).join.isSome = true
      rw [hp]
      simp [Option.join]
    rw [trackStep_eq_open_skip hside hopen]
    have hpos : touchKey st.positions signal.asset none = st.positions :=
      touchKey_of_mem _ _ _ (mem_keys_of_lookupA_eq_some hp)
    constructor
    · intro a
      show (lookupA (touchKey st.positions signal.asset none) a).join.isSome = tr.1 a
      rw [hpos]
      exact hinv.1 a
    · intro a
      exact hinv.2 a
  · have hopen : tr.1 signal.asset = false := by
      rw [← hinv.1 signal.asset]
      show (lookupA st.positions signal.asset).join.isSome = false
      rw [hnone]
      rfl
    rw [trackStep_eq_open hside hopen]
    constructor
    · intro a
      show (lookupA (setA (touchKey st.positions signal.asset none) signal.asset
          (some _)) a).join.isSome = if a = signal.asset then true else tr.1 a
      rw [lookupA_insert_join]
      by_cases ha : a = signal.asset
      · rw [if_pos ha, if_pos ha]
        rfl
      · rw [if_neg ha, if_neg ha]
        exact hinv.1 a
    · intro a
      exact hinv.2 a

theorem trackInv_close {config : BacktestConfig} {st st' : EngineState} {signal : Signal}
    {tr : (String → Bool) × (String → Nat)} (hside : signal.side = .CLOSE)
    (hinv : TrackInv st tr)
    (h : close_position config st signal = .ok st') :
    TrackInv st' (trackStep tr signal) := by
  rcases close_position_spec h with ⟨hnone, rfl⟩ | ⟨p, trd, hp, htr, rfl⟩
  · have hopen : tr.1 signal.asset = false := by
      rw [← hinv.1 signal.asset]
      show (lookupA st.positions signal.asset).join.isSome = false
      rw [hnone]
      rfl
    rw [trackStep_eq_close_skip hside hopen]
    constructor
    · intro a
      show (lookupA (touchKey st.positions signal.asset none) a).join.isSome = tr.1 a
      rw [getPos_touchKey]
      exact hinv.1 a
    · intro a
      exact hinv.2 a
  · have hopen : tr.1 signal.asset = true := by
      rw [← hinv.1 signal.asset]
      show (lookupA st.positions signal.asset).join.isSome = true
      rw [hp]
      rfl
    rw [trackStep_eq_close hside hopen]
    constructor
    · intro a
      show (lookupA (setA (touchKey st.positions signal.asset none) signal.asset
          none) a).join.isSome = if a = signal.asset then false else tr.1 a
      rw [lookupA_remove_join]
      by_cases ha : a = signal.asset
      · rw [if_pos ha, if_pos ha]
        rfl
      · rw [if_neg ha, if_neg ha]
        exact hinv.1 a
    · intro a
      show countTag (st.trades ++ [(signal.asset, trd)]) a
        = if a = signal.asset then tr.2 a + 1 else tr.2 a
      rw [countTag_append_single]
      have h3 : countTag st.trades a = tr.2 a := hinv.2 a
      by_cases ha : a = signal.asset
      · rw [if_pos ha.symm, if_pos ha]
        omega
      · rw [if_neg (fun hh => ha hh.symm), if_neg ha]
        omega

theorem trackInv_process {ss : List Signal} {config : BacktestConfig}
    {initial_capital : Rat} {st st' : EngineState} {signal : Signal}
    {tr : (String → Bool) × (String → Nat)} (hinv : TrackInv st tr)
    (h : process_signal ss config initial_capital st signal = .ok st') :
    TrackInv st' (trackStep tr signal) := by
  unfold process_signal at h
  split at h
  case h_1 hside =>
    cases ho : open_position ss config initial_capital st signal with
    | error e => rw [ho] at h; simp [Except.map] at h
    | ok st1 =>
      rw [ho] at h
      simp only [Except.map] at h
      injection h with h2
      subst h2
      exact trackInv_update_equity
        (trackInv_open (by rw [hside]; intro hc; cases hc) hinv ho)
  case h_2 hside =>
    cases ho : open_position ss config initial_capital st signal with
    | error e => rw [ho] at h; simp [Except.map] at h
    | ok st1 =>
      rw [ho] at h
      simp only [Except.map] at h
      injection h with h2
      subst h2
      exact trackInv_update_equity
        (trackInv_open (by rw [hside]; intro hc; cases hc) hinv ho)
  case h_3 hside =>
    cases ho : close_position config st signal with
    | error e => rw [ho] at h; simp [Except.map] at h
    | ok st1 =>
      rw [ho] at h
      simp only [Except.map] at h
      injection h with h2
      subst h2
      exact trackInv_update_equity (trackInv_close hside hinv ho)

theorem fold_trackInv {ss : List Signal} {config : BacktestConfig} {initial_capital : Rat} :
    ∀ (l : List Signal) (st : EngineState) (tr : (String → Bool) × (String → Nat)),
      TrackInv st tr →
      ∀ st', l.foldlM (process_signal ss config initial_capital) st = .ok st' →
      TrackInv st' (l.foldl trackStep tr) := by
  intro l
  induction l with
  | nil =>
    intro st tr hinv st' h
    simp only [List.foldlM_nil] at h
    cases h
    exact hinv
  | cons s l ih =>
    intro st tr hinv st' h
    rw [List.foldlM_cons] at h
    cases hs : process_signal ss config initial_capital st s with
    | error e => rw [hs] at h; simp [Except.bind, bind] at h
    | ok st1 =>
      rw [hs] at h
      have h' : l.foldlM (process_signal ss config initial_capital) st1 = .ok st' := by
        simpa [Except.bind, bind] using h
      rw [List.foldl_cons]
      exact ih st1 (trackStep tr s) (trackInv_process hinv hs) st' h'

theorem forceCloseStep_effect {config : BacktestConfig} {t : Int} {price : Rat}
    {acc acc' : EngineState} {asset : String}
    (h : forceCloseStep config t price acc asset = .ok acc') :
    acc'.getPos asset = none ∧
    (∀ b, b ≠ asset → acc'.getPos b = acc.getPos b) ∧
    (∀ b, countTag acc'.trades b = countTag acc.trades b +
      (if asset = b ∧ (acc.getPos asset).isSome then 1 else 0)) ∧
    acc'.cash_usdc = acc.cash_usdc +
      (match acc.getPos asset with | some p => price * p.quantity | none => 0) ∧
    acc'.equity_curve = acc.equity_curve := by
  unfold forceCloseStep force_close_last_position at h
  split at h
  case isTrue hcond =>
    rcases close_position_spec h with ⟨hnone, rfl⟩ | ⟨p, trd, hp, htr, rfl⟩
    · exfalso
      have : acc.getPos asset = none := hnone
      rw [this] at hcond
      simp at hcond
    · have hp' : acc.getPos asset = some p := hp
      have hev : trd.exit_value = price * p.quantity := by
        have := (from_position_fields htr).1
        simpa [adjustedPrice, apply_slippage, apply_fees] using this
      refine ⟨?_, ?_, ?_, ?_, rfl⟩
      · show (lookupA (setA (touchKey acc.positions asset none) asset none) asset).join
          = none
        rw [lookupA_remove_join, if_pos rfl]
      · intro b hb
        show (lookupA (setA (touchKey acc.positions asset none) asset none) b).join
          = acc.getPos b
        rw [lookupA_remove_join, if_neg hb]
        rfl
      · intro b
        show countTag (acc.trades ++ [(asset, trd)]) b = _
        rw [countTag_append_single]
        by_cases hab : asset = b
        · rw [if_pos hab, if_pos ⟨hab, hcond⟩]
        · rw [if_neg hab, if_neg (fun hc => hab hc.1)]
      · show acc.cash_usdc + trd.exit_value = _
        rw [hev, hp']
  case isFalse hcond =>
    injection h with h2
    subst h2
    have hpos : acc.getPos asset = none := by
      cases ho : acc.getPos asset with
      | none => rfl
      | some p => rw [ho] at hcond; simp at hcond
    refine ⟨hpos, fun b _ => rfl, ?_, ?_, rfl⟩
    · intro b
      rw [if_neg (fun hc => hcond hc.2)]
      omega
    · rw [hpos]
      simp

theorem forceClose_fold_effect (config : BacktestConfig) (t : Int) (price : Rat) :
    ∀ (ks : List String) (acc stF : EngineState),
      ks.foldlM (forceCloseStep config t price) acc = .ok stF →
      (∀ a, a ∈ ks → stF.getPos a = none) ∧
      (∀ a, a ∉ ks → stF.getPos a = acc.getPos a) ∧
      (∀ a, countTag stF.trades a = countTag acc.trades a +
        (if a ∈ ks ∧ (acc.getPos a).isSome then 1 else 0)) ∧
      stF.equity_curve = acc.equity_curve := by
  intro ks
  induction ks with
  | nil =>
    intro acc stF h
    simp only [List.foldlM_nil] at h
    cases h
    exact ⟨fun a ha => absurd ha (List.not_mem_nil a),
      fun a _ => rfl, fun a => by simp, rfl⟩
  | cons k rest ih =>
    intro acc stF h
    rw [List.foldlM_cons] at h
    cases hstep : forceCloseStep config t price acc k with
    | error e => rw [hstep] at h; simp [Except.bind, bind] at h
    | ok acc1 =>
      rw [hstep] at h
      have h' : rest.foldlM (forceCloseStep config t price) acc1 = .ok stF := by
        simpa [Except.bind, bind] using h
      rcases forceCloseStep_effect hstep with ⟨e1, e2, e3, _e4, e5⟩
      rcases ih acc1 stF h' with ⟨i1, i2, i3, i4⟩
      refine ⟨?_, ?_, ?_, ?_⟩
      · intro a ha
        rcases List.mem_cons.1 ha with rfl | hmem
        · by_cases hr : a ∈ rest
          · exact i1 a hr
          · rw [i2 a hr]
            exact e1
        · exact i1 a hmem
      · intro a ha
        have hk : a ≠ k := fun hc => ha (by rw [hc]; exact List.mem_cons_self k rest)
        have hr : a ∉ rest := fun hc => ha (List.mem_cons_of_mem k hc)
        rw [i2 a hr]
        exact e2 a hk
      · intro a
        rw [i3 a, e3 a]
        by_cases hak : a = k
        · subst hak
          have hnone1 : (acc1.getPos a).isSome = false := by rw [e1]; rfl
          by_cases hopen : (acc.getPos a).isSome
          · simp [hnone1, hopen]
          · simp [hnone1, hopen]
        · rw [e2 a (fun hc => hak hc)]
          by_cases hopen : (acc.getPos a).isSome
          · by_cases hr : a ∈ rest <;> simp [hopen, hr, hak, Ne.symm hak]
          · simp [hopen, Ne.symm hak]
      · rw [i4, e5]

theorem forceClose_fold_cash (config : BacktestConfig) (t : Int) (price : Rat) :
    ∀ (ks : List String) (acc stF : EngineState), ks.Nodup →
      ks.foldlM (forceCloseStep config t price) acc = .ok stF →
      stF.cash_usdc = acc.cash_usdc + (ks.map (fun a =>
        match acc.getPos a with | some p => price * p.quantity | none => 0)).sum := by
  intro ks
  induction ks with
  | nil =>
    intro acc stF _ h
    simp only [List.foldlM_nil] at h
    cases h
    simp
  | cons k rest ih =>
    intro acc stF hnd h
    rw [List.foldlM_cons] at h
    cases hstep : forceCloseStep config t price acc k with
    | error e => rw [hstep] at h; simp [Except.bind, bind] at h
    | ok acc1 =>
      rw [hstep] at h
      have h' : rest.foldlM (forceCloseStep config t price) acc1 = .ok stF := by
        simpa [Except.bind, bind] using h
      rcases forceCloseStep_effect hstep with ⟨e1, e2, e3, e4, e5⟩
      have ihc := ih acc1 stF (List.Nodup.of_cons hnd) h'
      have hkr : k ∉ rest := (List.nodup_cons.1 hnd).1
      have hmap : rest.map (fun a =>
          match acc1.getPos a with | some p => price * p.quantity | none => 0)
        = rest.map (fun a =>
          match acc.getPos a with | some p => price * p.quantity | none => 0) := by
        apply List.map_congr_left
        intro a ha
        rw [e2 a (fun hc => hkr (hc ▸ ha))]
      rw [List.map_cons, List.sum_cons, ihc, hmap, e4]
      ring

/-- Claim C3 counterexample: for `[(1,BUY,100,X), (2,CLOSE,110,X)]` the
asset "X" received one explicit CLOSE signal and ends with exactly one
Trade — not two as the claim (`closes + 1`) requires. -/
theorem claim_C3_counterexample :
    (∃ st, run_state [⟨1, .BUY, 100, "X"⟩, ⟨2, .CLOSE, 110, "X"⟩]
        { slippage := 0, fee := 0 } 1000 = .ok st ∧ tradeCountA st "X" = 1) ∧
    ([⟨1, .BUY, 100, "X"⟩, ⟨2, .CLOSE, 110, "X"⟩].filter
      (fun s : Signal => decide (s.side = .CLOSE) && decide (s.asset = "X"))).length = 1 ∧
    (1 : Nat) ≠ 1 + 1 := by
  have hs : sortSignals [⟨1, .BUY, 100, "X"⟩, ⟨2, .CLOSE, 110, "X"⟩]
      = [⟨1, .BUY, 100, "X"⟩, ⟨2, .CLOSE, 110, "X"⟩] :=
    sortSignals_eq_of_sorted (by norm_num)
  refine ⟨⟨{ trades := [("X", ⟨1, 2, .BUY, 100, 110, 10, 100, 10, 1100⟩)],
             equity_curve := [(1, ⟨0, [("X", ⟨10, some 100, 1000⟩)], 1000⟩),
                              (2, ⟨1100, [("X", ⟨0, none, 0⟩)], 1100⟩)],
             positions := [("X", none)],
             asset_balances := [("X", 0)],
             cash_usdc := 1100 }, ?_, by simp [tradeCountA, countTag, List.filter]⟩,
    by simp [List.filter], by omega⟩
  unfold run_state
  rw [hs]
  norm_num [run_sorted, process_signal, open_position, close_position, update_equity,
    mkSnapshot, latestPrice, active_asset_count, touchKey, lookupA, setA,
    apply_slippage, apply_fees, Trade.from_position, initState, Position.market_value,
    force_close_all, force_close_last_position, EngineState.getPos, List.dedup,
    List.foldlM, Except.map, Except.pure, Except.bind, bind, pure]

/-- Claim C3 (amended): after a successful `run()` no asset has an open
Position, and each asset's number of Trades equals the number of CLOSE
signals it received while a Position was open (accepted closes, counted
by the tracker), plus one exactly when a Position was still open after
the final signal (closed by the synthetic force-close). -/
theorem claim_C3 (signals : List Signal) (config : BacktestConfig)
    (initial_capital : Rat) :
    ∀ st, run_state signals config initial_capital = .ok st →
      (∀ a, st.getPos a = none) ∧
      (∀ a, tradeCountA st a
        = (track (sortSignals signals)).2 a
          + (if (track (sortSignals signals)).1 a then 1 else 0)) := by
  intro st h
  unfold run_state run_sorted at h
  cases hf : (sortSignals signals).foldlM
      (process_signal (sortSignals signals) config initial_capital)
      (initState initial_capital) with
  | error e => rw [hf] at h; simp [Except.bind, bind] at h
  | ok st1 =>
    have hinv : TrackInv st1 (track (sortSignals signals)) :=
      fold_trackInv (sortSignals signals) (initState initial_capital) _
        (trackInv_initState initial_capital) st1 hf
    rw [hf] at h
    simp only [Except.bind, bind] at h
    cases hlast : (sortSignals signals).getLast? with
    | none =>
      rw [hlast] at h
      injection h with h2
      subst h2
      constructor
      · intro a
        have hss : sortSignals signals = [] := List.getLast?_eq_none_iff.1 hlast
        have hta := hinv.1 a
        rw [hss] at hta
        cases ho : st1.getPos a with
        | none => rfl
        | some p =>
          rw [ho] at hta
          simp [track] at hta
      · intro a
        rw [show tradeCountA st1 a = (track (sortSignals signals)).2 a from hinv.2 a]
        have hss : sortSignals signals = [] := List.getLast?_eq_none_iff.1 hlast
        rw [hss]
        show (track []).2 a = (track []).2 a + (if (track []).1 a then 1 else 0)
        show (0 : Nat) = 0 + (if false = true then 1 else 0)
        simp
    | some lastSig =>
      rw [hlast] at h
      simp only [force_close_all_eq_foldlM] at h
      rcases forceClose_fold_effect config lastSig.timestamp lastSig.price
          (st1.positions.map Prod.fst) st1 st h with ⟨f1, f2, f3, _f4⟩
      constructor
      · intro a
        by_cases hm : a ∈ st1.positions.map Prod.fst
        · exact f1 a hm
        · rw [f2 a hm]
          show (lookupA st1.positions a).join = none
          rw [lookupA_eq_none_of_not_mem_keys st1.positions a hm]
          rfl
      · intro a
        have hiff : (a ∈ st1.positions.map Prod.fst ∧ (st1.getPos a).isSome)
            ↔ (st1.getPos a).isSome = true := by
          constructor
          · intro hc; exact hc.2
          · intro hc
            refine ⟨?_, hc⟩
            have : (lookupA st1.positions a).isSome := by
              cases hl : lookupA st1.positions a with
              | none =>
                exfalso
                have : st1.getPos a = none := by
                  show (lookupA st1.positions a).join = none
                  rw [hl]; rfl
                rw [this] at hc
                simp at hc
              | some v => simp
            exact (lookupA_isSome_iff_mem_keys st1.positions a).1 this
        have h3 := f3 a
        show countTag st.trades a
          = (track (sortSignals signals)).2 a
            + (if (track (sortSignals signals)).1 a then 1 else 0)
        rw [h3,
          show countTag st1.trades a = (track (sortSignals signals)).2 a from hinv.2 a]
        congr 1
        by_cases hc : (st1.getPos a).isSome
        · rw [if_pos (hiff.2 hc), if_pos (by rw [← hinv.1 a]; exact hc)]
        · rw [if_neg (fun hx => hc (hiff.1 hx)),
            if_neg (by rw [← hinv.1 a]; exact hc)]

/-- Witness for claim C3 on Scenario B: after the run, "X" holds no
position and has exactly `1 + 0` trades (one accepted close, no
force-close). -/
theorem claim_C3_witness :
    ∃ st, run_state [⟨1, .BUY, 100, "X"⟩, ⟨2, .CLOSE, 110, "X"⟩]
        { slippage := 0, fee := 0 } 1000 = .ok st ∧
      st.getPos "X" = none ∧
      tradeCountA st "X"
        = (track (sortSignals [⟨1, .BUY, 100, "X"⟩, ⟨2, .CLOSE, 110, "X"⟩])).2 "X"
          + (if (track (sortSignals [⟨1, .BUY, 100, "X"⟩, ⟨2, .CLOSE, 110, "X"⟩])).1 "X"
             then 1 else 0) := by
  have hs : sortSignals [⟨1, .BUY, 100, "X"⟩, ⟨2, .CLOSE, 110, "X"⟩]
      = [⟨1, .BUY, 100, "X"⟩, ⟨2, .CLOSE, 110, "X"⟩] :=
    sortSignals_eq_of_sorted (by norm_num)
  have hrun : run_state [⟨1, .BUY, 100, "X"⟩, ⟨2, .CLOSE, 110, "X"⟩]
      { slippage := 0, fee := 0 } 1000
      = .ok { trades := [("X", ⟨1, 2, .BUY, 100, 110, 10, 100, 10, 1100⟩)],
              equity_curve := [(1, ⟨0, [("X", ⟨10, some 100, 1000⟩)], 1000⟩),
                               (2, ⟨1100, [("X", ⟨0, none, 0⟩)], 1100⟩)],
              positions := [("X", none)],
              asset_balances := [("X", 0)],
              cash_usdc := 1100 } := by
    unfold run_state
    rw [hs]
    norm_num [run_sorted, process_signal, open_position, close_position, update_equity,
      mkSnapshot, latestPrice, active_asset_count, touchKey, lookupA, setA,
      apply_slippage, apply_fees, Trade.from_position, initState, Position.market_value,
      force_close_all, force_close_last_position, EngineState.getPos, List.dedup,
      List.foldlM, Except.map, Except.pure, Except.bind, bind, pure]
  refine ⟨_, hrun, ?_, ?_⟩
  · exact (claim_C3 [⟨1, .BUY, 100, "X"⟩, ⟨2, .CLOSE, 110, "X"⟩]
      { slippage := 0, fee := 0 } 1000 _ hrun).1 "X"
  · exact (claim_C3 [⟨1, .BUY, 100, "X"⟩, ⟨2, .CLOSE, 110, "X"⟩]
      { slippage := 0, fee := 0 } 1000 _ hrun).2 "X"

/-! ### Claim C1: machinery for the equity-curve and cash reconciliation -/

theorem setA_ne_nil {α β : Type} [DecidableEq α] (l : List (α × β)) (a : α) (b : β) :
    setA l a b ≠ [] := by
  cases l with
  | nil => simp [setA]
  | cons e rest =>
    unfold setA
    split <;> simp

theorem keys_setA_subset {α β : Type} [DecidableEq α] (l : List (α × β)) (a : α) (b : β) :
    ∀ x ∈ (setA l a b).map Prod.fst, x ∈ l.map Prod.fst ∨ x = a := by
  induction l with
  | nil => intro x hx; simp [setA] at hx; exact Or.inr hx
  | cons e rest ih =>
    intro x hx
    unfold setA at hx
    split at hx
    · simp only [List.map_cons, List.mem_cons] at hx
      rcases hx with rfl | hx
      · exact Or.inr rfl
      · exact Or.inl (by simp [hx])
    · simp only [List.map_cons, List.mem_cons] at hx
      rcases hx with rfl | hx
      · exact Or.inl (by simp)
      · rcases ih x hx with h | h
        · exact Or.inl (by simp [h])
        · exact Or.inr h

theorem lookupA_self_of_nodup {α β : Type} [DecidableEq α] :
    ∀ (l : List (α × β)), (l.map Prod.fst).Nodup → ∀ e ∈ l, lookupA l e.1 = some e.2 := by
  intro l
  induction l with
  | nil => intro _ e he; exact absurd he (List.not_mem_nil e)
  | cons f rest ih =>
    intro hnd e he
    rcases List.mem_cons.1 he with rfl | hmem
    · show lookupA ((e.1, e.2) :: rest) e.1 = some e.2
      simp [lookupA]
    · have hnd' : f.1 ∉ rest.map Prod.fst ∧ (rest.map Prod.fst).Nodup := by
        rw [List.map_cons] at hnd
        exact List.nodup_cons.1 hnd
      have hne : f.1 ≠ e.1 := by
        intro hc
        exact hnd'.1 (hc ▸ List.mem_map.2 ⟨e, hmem, rfl⟩)
      show lookupA (f :: rest) e.1 = some e.2
      rw [show lookupA (f :: rest) e.1 = lookupA rest e.1 by simp [lookupA, hne]]
      exact ih hnd'.2 e hmem

theorem map_keys_lookup {γ : Type} (g : Option Position → γ) :
    ∀ (l : List (String × Option Position)), (l.map Prod.fst).Nodup →
      (l.map Prod.fst).map (fun a => g (lookupA l a).join) = l.map (fun e => g e.2) := by
  intro l
  induction l with
  | nil => intro _; rfl
  | cons f rest ih =>
    intro hnd
    have hnd' : f.1 ∉ rest.map Prod.fst ∧ (rest.map Prod.fst).Nodup := by
      rw [List.map_cons] at hnd
      exact List.nodup_cons.1 hnd
    have hhead : f.1 ∉ rest.map Prod.fst := hnd'.1
    have htail : (rest.map Prod.fst).Nodup := hnd'.2
    rw [List.map_cons, List.map_cons, List.map_cons]
    congr 1
    · rw [show lookupA (f :: rest) f.1 = some f.2 by
        cases f with
        | mk k v => simp [lookupA]]
      rfl
    · rw [show (rest.map Prod.fst).map (fun a => g (lookupA (f :: rest) a).join)
          = (rest.map Prod.fst).map (fun a => g (lookupA rest a).join) from
        List.map_congr_left (fun a ha => by
          rw [show lookupA (f :: rest) a = lookupA rest a by
            have hne : f.1 ≠ a := fun hc => hhead (hc ▸ ha)
            cases f with
            | mk k v => simp [lookupA, hne]])]
      exact ih htail

theorem sortSignals_sorted (l : List Signal) :
    (sortSignals l).Pairwise (fun a b => a.timestamp ≤ b.timestamp) := by
  have h : (sortSignals l).Pairwise
      (fun a b : Signal => decide (a.timestamp ≤ b.timestamp) = true) :=
    List.sorted_mergeSort
      (fun a b c hab hbc => by
        simpa using le_trans (of_decide_eq_true hab) (of_decide_eq_true hbc))
      (fun a b => by simpa using le_total a.timestamp b.timestamp) l
  exact h.imp (fun hab => by simpa using hab)

/-- Writing the snapshot for the largest timestamp so far puts it last
and keeps the curve's keys strictly increasing. -/
theorem setA_curve_last :
    ∀ (c : List (Int × Snapshot)) (t : Int) (snap : Snapshot),
      (c.map Prod.fst).Pairwise (· < ·) → (∀ e ∈ c, e.1 ≤ t) →
      (setA c t snap).getLast? = some (t, snap) ∧
      ((setA c t snap).map Prod.fst).Pairwise (· < ·) ∧
      (∀ e ∈ setA c t snap, e.1 ≤ t) := by
  intro c
  induction c with
  | nil =>
    intro t snap _ _
    refine ⟨rfl, ?_, ?_⟩
    · show ([((t, snap) : Int × Snapshot)].map Prod.fst).Pairwise (· < ·)
      simp
    intro e he
    have he' : e ∈ [(t, snap)] := he
    rcases List.mem_singleton.1 he' with rfl
    exact le_refl t
  | cons f rest ih =>
    intro t snap hpw hbd
    have hpwc : (∀ x ∈ rest.map Prod.fst, f.1 < x) ∧
        (rest.map Prod.fst).Pairwise (· < ·) := by
      rw [List.map_cons] at hpw
      exact List.pairwise_cons.1 hpw
    by_cases hf : f.1 = t
    · have hrest : rest = [] := by
        cases rest with
        | nil => rfl
        | cons g tail =>
          exfalso
          have h1 : f.1 < g.1 := hpwc.1 g.1 (by simp)
          have h2 : g.1 ≤ t := hbd g (by simp)
          omega
      subst hrest
      show ((setA [f] t snap).getLast? = some (t, snap)) ∧ _
      rw [show setA [f] t snap = [(t, snap)] by
        cases f with
        | mk k v => simp only [setA]; rw [if_pos hf]]
      refine ⟨rfl, by simp, ?_⟩
      intro e he
      rcases List.mem_singleton.1 he with rfl
      exact le_refl t
    · have hflt : f.1 < t := lt_of_le_of_ne (hbd f (by simp)) hf
      have hpw' : (rest.map Prod.fst).Pairwise (· < ·) := hpwc.2
      have hbd' : ∀ e ∈ rest, e.1 ≤ t := fun e he => hbd e (by simp [he])
      rcases ih t snap hpw' hbd' with ⟨ih1, ih2, ih3⟩
      have hset : setA (f :: rest) t snap = f :: setA rest t snap := by
        cases f with
        | mk k v => simp only [setA]; rw [if_neg hf]
      rw [hset]
      refine ⟨?_, ?_, ?_⟩
      · cases hsr : setA rest t snap with
        | nil => exact absurd hsr (setA_ne_nil rest t snap)
        | cons y ys =>
          rw [List.getLast?_cons_cons]
          rw [hsr] at ih1
          exact ih1
      · rw [List.map_cons]
        rw [List.pairwise_cons]
        constructor
        · intro x hx
          rcases keys_setA_subset rest t snap x hx with h | h
          · exact hpwc.1 x h
          · rw [h]; exact hflt
        · exact ih2
      · intro e he
        rcases List.mem_cons.1 he with rfl | hmem
        · exact le_of_lt hflt
        · exact ih3 e hmem

/-- The position table's keys are distinct (CPython dicts cannot hold a
key twice). -/
def KeysInv (st : EngineState) : Prop :=
  (st.positions.map Prod.fst).Nodup

theorem nodup_touchKey {α β : Type} [DecidableEq α] {l : List (α × β)} (a : α) (d : β)
    (h : (l.map Prod.fst).Nodup) : ((touchKey l a d).map Prod.fst).Nodup := by
  unfold touchKey
  split
  case isTrue => exact h
  case isFalse hcond =>
    have hmem : a ∉ l.map Prod.fst :=
      fun hm => hcond ((lookupA_isSome_iff_mem_keys l a).2 hm)
    rw [List.map_append]
    refine List.Nodup.append h (by simp) ?_
    intro x hx hy
    rcases List.mem_singleton.1 (by simpa using hy) with rfl
    exact hmem hx

theorem keysInv_initState (initial_capital : Rat) : KeysInv (initState initial_capital) := by
  show (([] : List (String × Option Position)).map Prod.fst).Nodup
  simp

theorem keysInv_update_equity {ss : List Signal} {st : EngineState} {t : Int}
    (hinv : KeysInv st) : KeysInv (update_equity ss st t) := hinv

theorem keysInv_open {ss : List Signal} {config : BacktestConfig} {initial_capital : Rat}
    {st st' : EngineState} {signal : Signal} (hinv : KeysInv st)
    (h : open_position ss config initial_capital st signal = .ok st') : KeysInv st' := by
  rcases open_position_spec h with ⟨⟨p, hp⟩, rfl⟩ | ⟨hnone, hn, hz, rfl⟩
  · exact nodup_touchKey signal.asset none hinv
  · show ((setA (touchKey st.positions signal.asset none) signal.asset _).map Prod.fst).Nodup
    rw [keys_setA_of_mem _ _ _ ((lookupA_isSome_iff_mem_keys _ _).1
      (by rw [lookupA_touchKey_self]; rfl))]
    exact nodup_touchKey signal.asset none hinv

theorem keysInv_close {config : BacktestConfig} {st st' : EngineState} {signal : Signal}
    (hinv : KeysInv st) (h : close_position config st signal = .ok st') : KeysInv st' := by
  rcases close_position_spec h with ⟨hnone, rfl⟩ | ⟨p, tr, hp, htr, rfl⟩
  · exact nodup_touchKey signal.asset none hinv
  · show ((setA (touchKey st.positions signal.asset none) signal.asset none).map
      Prod.fst).Nodup
    rw [keys_setA_of_mem _ _ _ ((lookupA_isSome_iff_mem_keys _ _).1
      (by rw [lookupA_touchKey_self]; rfl))]
    exact nodup_touchKey signal.asset none hinv

theorem keysInv_process {ss : List Signal} {config : BacktestConfig}
    {initial_capital : Rat} {st st' : EngineState} {signal : Signal} (hinv : KeysInv st)
    (h : process_signal ss config initial_capital st signal = .ok st') : KeysInv st' := by
  unfold process_signal at h
  split at h
  case h_1 =>
    cases ho : open_position ss config initial_capital st signal with
    | error e => rw [ho] at h; simp [Except.map] at h
    | ok st1 =>
      rw [ho] at h
      simp only [Except.map] at h
      injection h with h2
      subst h2
      exact keysInv_update_equity (keysInv_open hinv ho)
  case h_2 =>
    cases ho : open_position ss config initial_capital st signal with
    | error e => rw [ho] at h; simp [Except.map] at h
    | ok st1 =>
      rw [ho] at h
      simp only [Except.map] at h
      injection h with h2
      subst h2
      exact keysInv_update_equity (keysInv_open hinv ho)
  case h_3 =>
    cases ho : close_position config st signal with
    | error e => rw [ho] at h; simp [Except.map] at h
    | ok st1 =>
      rw [ho] at h
      simp only [Except.map] at h
      injection h with h2
      subst h2
      exact keysInv_update_equity (keysInv_close hinv ho)

theorem open_position_equity_curve {ss : List Signal} {config : BacktestConfig}
    {initial_capital : Rat} {st st' : EngineState} {signal : Signal}
    (h : open_position ss config initial_capital st signal = .ok st') :
    st'.equity_curve = st.equity_curve := by
  rcases open_position_spec h with ⟨_, rfl⟩ | ⟨_, _, _, rfl⟩ <;> rfl

theorem close_position_equity_curve {config : BacktestConfig} {st st' : EngineState}
    {signal : Signal} (h : close_position config st signal = .ok st') :
    st'.equity_curve = st.equity_curve := by
  rcases close_position_spec h with ⟨_, rfl⟩ | ⟨p, tr, _, _, rfl⟩ <;> rfl

theorem process_signal_curve {ss : List Signal} {config : BacktestConfig}
    {initial_capital : Rat} {st st' : EngineState} {signal : Signal}
    (h : process_signal ss config initial_capital st signal = .ok st') :
    st'.equity_curve = setA st.equity_curve signal.timestamp
      (mkSnapshot ss st'.positions st'.cash_usdc signal.timestamp) := by
  unfold process_signal at h
  split at h
  case h_1 =>
    cases ho : open_position ss config initial_capital st signal with
    | error e => rw [ho] at h; simp [Except.map] at h
    | ok st1 =>
      rw [ho] at h
      simp only [Except.map] at h
      injection h with h2
      subst h2
      show setA st1.equity_curve signal.timestamp
          (mkSnapshot ss st1.positions st1.cash_usdc signal.timestamp) = _
      rw [open_position_equity_curve ho]
      rfl
  case h_2 =>
    cases ho : open_position ss config initial_capital st signal with
    | error e => rw [ho] at h; simp [Except.map] at h
    | ok st1 =>
      rw [ho] at h
      simp only [Except.map] at h
      injection h with h2
      subst h2
      show setA st1.equity_curve signal.timestamp
          (mkSnapshot ss st1.positions st1.cash_usdc signal.timestamp) = _
      rw [open_position_equity_curve ho]
      rfl
  case h_3 =>
    cases ho : close_position config st signal with
    | error e => rw [ho] at h; simp [Except.map] at h
    | ok st1 =>
      rw [ho] at h
      simp only [Except.map] at h
      injection h with h2
      subst h2
      show setA st1.equity_curve signal.timestamp
          (mkSnapshot ss st1.positions st1.cash_usdc signal.timestamp) = _
      rw [close_position_equity_curve ho]
      rfl

/-- After processing a non-empty sorted batch of signals, the equity
curve's last entry is the snapshot of the final state at the final
signal's timestamp. -/
theorem fold_curve_last (ss : List Signal) (config : BacktestConfig) (cap : Rat) :
    ∀ (l : List Signal) (st : EngineState),
      l.Pairwise (fun a b => a.timestamp ≤ b.timestamp) →
      (st.equity_curve.map Prod.fst).Pairwise (· < ·) →
      (∀ e ∈ st.equity_curve, ∀ s ∈ l, e.1 ≤ s.timestamp) →
      ∀ st', l.foldlM (process_signal ss config cap) st = .ok st' →
      (l = [] ∧ st' = st) ∨
      (∃ lastSig, l.getLast? = some lastSig ∧
        st'.equity_curve.getLast? = some (lastSig.timestamp,
          mkSnapshot ss st'.positions st'.cash_usdc lastSig.timestamp)) := by
  intro l
  induction l with
  | nil =>
    intro st _ _ _ st' h
    simp only [List.foldlM_nil] at h
    cases h
    exact Or.inl ⟨rfl, rfl⟩
  | cons s rest ih =>
    intro st hsort hpw hbd st' h
    rw [List.foldlM_cons] at h
    cases hstep : process_signal ss config cap st s with
    | error e => rw [hstep] at h; simp [Except.bind, bind] at h
    | ok st1 =>
      rw [hstep] at h
      have h' : rest.foldlM (process_signal ss config cap) st1 = .ok st' := by
        simpa [Except.bind, bind] using h
      have hsortc : (∀ r ∈ rest, s.timestamp ≤ r.timestamp) ∧
          rest.Pairwise (fun a b => a.timestamp ≤ b.timestamp) :=
        List.pairwise_cons.1 hsort
      have hcurve1 : st1.equity_curve = setA st.equity_curve s.timestamp
          (mkSnapshot ss st1.positions st1.cash_usdc s.timestamp) :=
        process_signal_curve hstep
      rcases setA_curve_last st.equity_curve s.timestamp
          (mkSnapshot ss st1.positions st1.cash_usdc s.timestamp) hpw
          (fun e he => hbd e he s (by simp)) with ⟨c1, c2, c3⟩
      rcases ih st1 hsortc.2 (by rw [hcurve1]; exact c2)
          (by
            intro e he r hr
            have h1 : e.1 ≤ s.timestamp := c3 e (by rw [hcurve1] at he; exact he)
            exact le_trans h1 (hsortc.1 r hr)) st' h' with
        ⟨hrn, rfl⟩ | ⟨ls, hl, hc⟩
      · subst hrn
        right
        refine ⟨s, rfl, ?_⟩
        rw [hcurve1]
        exact c1
      · right
        refine ⟨ls, ?_, hc⟩
        cases rest with
        | nil => simp at hl
        | cons r tail => rw [List.getLast?_cons_cons]; exact hl

theorem forceCloseStep_keys {config : BacktestConfig} {t : Int} {price : Rat}
    {acc acc' : EngineState} {asset : String}
    (h : forceCloseStep config t price acc asset = .ok acc') :
    acc'.positions.map Prod.fst = acc.positions.map Prod.fst := by
  unfold forceCloseStep force_close_last_position at h
  split at h
  case isTrue hcond =>
    rcases close_position_spec h with ⟨hnone, rfl⟩ | ⟨p, tr, hp, htr, rfl⟩
    · exfalso
      have : acc.getPos asset = none := hnone
      rw [this] at hcond
      simp at hcond
    · have hmem : asset ∈ acc.positions.map Prod.fst := by
        refine (lookupA_isSome_iff_mem_keys _ _).1 ?_
        cases hl : lookupA acc.positions asset with
        | none =>
          exfalso
          have hjoin : (lookupA acc.positions asset).join = some p := hp
          rw [hl] at hjoin
          simp [Option.join] at hjoin
        | some v => simp
      show ((setA (touchKey acc.positions asset none) asset none).map Prod.fst) = _
      rw [touchKey_of_mem _ _ _ hmem, keys_setA_of_mem _ _ _ hmem]
  case isFalse =>
    injection h with h2
    subst h2
    rfl

theorem forceClose_fold_keys (config : BacktestConfig) (t : Int) (price : Rat) :
    ∀ (ks : List String) (acc stF : EngineState),
      ks.foldlM (forceCloseStep config t price) acc = .ok stF →
      stF.positions.map Prod.fst = acc.positions.map Prod.fst := by
  intro ks
  induction ks with
  | nil =>
    intro acc stF h
    simp only [List.foldlM_nil] at h
    cases h
    rfl
  | cons k rest ih =>
    intro acc stF h
    rw [List.foldlM_cons] at h
    cases hstep : forceCloseStep config t price acc k with
    | error e => rw [hstep] at h; simp [Except.bind, bind] at h
    | ok acc1 =>
      rw [hstep] at h
      have h' : rest.foldlM (forceCloseStep config t price) acc1 = .ok stF := by
        simpa [Except.bind, bind] using h
      rw [ih acc1 stF h', forceCloseStep_keys hstep]

/-- Claim C1 counterexample: two assets, final signal price 50 for "Y";
the force-close liquidates the still-open "X" position at 50 instead of
its own latest price 100, so final cash (750) plus the market value of
still-open positions (0) differs from the final snapshot's equity
(1000). -/
theorem claim_C1_counterexample :
    ∃ st, run_state [⟨1, .BUY, 100, "X"⟩, ⟨2, .BUY, 50, "Y"⟩]
        { slippage := 0, fee := 0 } 1000 = .ok st ∧
      st.cash_usdc = 750 ∧
      openMarketValueSum [⟨1, .BUY, 100, "X"⟩, ⟨2, .BUY, 50, "Y"⟩] st 2 = 0 ∧
      st.equity_curve.getLast?.map (fun e => e.2.equity_usdc) = some 1000 ∧
      ¬ ((750 : Rat) + 0 = 1000) := by
  have hs : sortSignals [⟨1, .BUY, 100, "X"⟩, ⟨2, .BUY, 50, "Y"⟩]
      = [⟨1, .BUY, 100, "X"⟩, ⟨2, .BUY, 50, "Y"⟩] :=
    sortSignals_eq_of_sorted (by norm_num)
  have hc : active_asset_count [⟨1, .BUY, 100, "X"⟩, ⟨2, .BUY, 50, "Y"⟩] = 2 := by
    decide
  have hxy : ("X" : String) ≠ "Y" := by decide
  have hyx : ("Y" : String) ≠ "X" := by decide
  refine ⟨{ trades := [("X", ⟨1, 2, .BUY, 100, 50, 5, -250, -50, 250⟩),
                       ("Y", ⟨2, 2, .BUY, 50, 50, 5, 0, 0, 250⟩)],
            equity_curve := [(1, ⟨500, [("X", ⟨5, some 100, 500⟩)], 1000⟩),
                             (2, ⟨250, [("X", ⟨5, some 100, 500⟩),
                                        ("Y", ⟨5, some 50, 250⟩)], 1000⟩)],
            positions := [("X", none), ("Y", none)],
            asset_balances := [("X", 0), ("Y", 0)],
            cash_usdc := 750 }, ?_, by norm_num,
    by norm_num [openMarketValueSum], by norm_num, by norm_num⟩
  unfold run_state
  rw [hs]
  norm_num [run_sorted, process_signal, open_position, close_position, update_equity,
    mkSnapshot, latestPrice, hc, hxy, hyx, touchKey, lookupA, setA,
    apply_slippage, apply_fees, Trade.from_position, initState, Position.market_value,
    force_close_all, force_close_last_position, EngineState.getPos, List.find?,
    List.foldlM, Except.map, Except.pure, Except.bind, bind, pure]

/-- Claim C1 (amended): for at least one signal, the final cash plus the
market value of still-open positions equals the final equity snapshot's
total equity, provided every position still open after the last processed
signal has its most recent signal price (at or before the final
timestamp) equal to the final signal's price — the price at which the
synthetic force-close liquidates it.  (Single-asset runs always satisfy
this proviso.) -/
theorem claim_C1 (signals : List Signal) (config : BacktestConfig)
    (initial_capital : Rat) (st stF : EngineState) (lastSig : Signal)
    (hlast : (sortSignals signals).getLast? = some lastSig)
    (hfold : (sortSignals signals).foldlM
      (process_signal (sortSignals signals) config initial_capital)
      (initState initial_capital) = .ok st)
    (hprices : ∀ a p, lookupA st.positions a = some (some p) →
      latestPrice (sortSignals signals) a lastSig.timestamp p = lastSig.price)
    (hforce : force_close_all config st lastSig.timestamp lastSig.price = .ok stF) :
    run_state signals config initial_capital = .ok stF ∧
    ∃ snap, stF.equity_curve.getLast? = some (lastSig.timestamp, snap) ∧
      stF.cash_usdc + openMarketValueSum (sortSignals signals) stF lastSig.timestamp
        = snap.equity_usdc := by
  have hkeys : KeysInv st :=
    foldlM_except_induct (P := KeysInv)
      (process_signal (sortSignals signals) config initial_capital)
      (sortSignals signals) (initState initial_capital)
      (keysInv_initState initial_capital)
      (fun s' a s'' _ hP hok => keysInv_process hP hok) st hfold
  have hforce' : (st.positions.map Prod.fst).foldlM
      (forceCloseStep config lastSig.timestamp lastSig.price) st = .ok stF := by
    rw [← force_close_all_eq_foldlM]
    exact hforce
  rcases forceClose_fold_effect config lastSig.timestamp lastSig.price
      (st.positions.map Prod.fst) st stF hforce' with ⟨f1, f2, _f3, f4⟩
  have hcash := forceClose_fold_cash config lastSig.timestamp lastSig.price
    (st.positions.map Prod.fst) st stF hkeys hforce'
  -- the equity curve's last entry is the snapshot of the post-loop state
  rcases fold_curve_last (sortSignals signals) config initial_capital
      (sortSignals signals) (initState initial_capital) (sortSignals_sorted signals)
      (by show (([] : List (Int × Snapshot)).map Prod.fst).Pairwise (· < ·); simp)
      (by intro e he; exact absurd he (List.not_mem_nil e)) st hfold with
    ⟨hnil, _⟩ | ⟨ls, hl, hcl⟩
  · rw [hnil] at hlast
    simp at hlast
  · rw [hl] at hlast
    injection hlast with hls
    subst hls
    constructor
    · unfold run_state run_sorted
      rw [hfold]
      simp only [Except.bind, bind]
      rw [hl]
      exact hforce
    · refine ⟨mkSnapshot (sortSignals signals) st.positions st.cash_usdc ls.timestamp,
        ?_, ?_⟩
      · rw [f4]
        exact hcl
      · -- cash side: force-close credits exactly the liquidation values
        have hsum1 : ((st.positions.map Prod.fst).map (fun a =>
            match st.getPos a with
            | some p => ls.price * p.quantity
            | none => 0)).sum
          = (st.positions.map (fun e =>
              match e.2 with
              | some p => ls.price * p.quantity
              | none => 0)).sum :=
          congrArg List.sum (map_keys_lookup
            (fun o => match o with | some p => ls.price * p.quantity | none => 0)
            st.positions hkeys)
        have hentries : st.positions.map (fun e =>
            match e.2 with
            | some p => p.market_value
                (latestPrice (sortSignals signals) e.1 ls.timestamp p)
            | none => 0)
          = st.positions.map (fun e =>
              match e.2 with
              | some p => ls.price * p.quantity
              | none => 0) := by
          apply List.map_congr_left
          intro e he
          rcases e with ⟨a, po⟩
          cases po with
          | none => rfl
          | some p =>
            have hlk : lookupA st.positions a = some (some p) :=
              lookupA_self_of_nodup st.positions hkeys (a, some p) he
            show p.market_value (latestPrice (sortSignals signals) a ls.timestamp p)
              = ls.price * p.quantity
            rw [hprices a p hlk]
            unfold Position.market_value
            ring
        have hzero : openMarketValueSum (sortSignals signals) stF ls.timestamp = 0 := by
          have hstFkeys : stF.positions.map Prod.fst = st.positions.map Prod.fst :=
            forceClose_fold_keys config ls.timestamp ls.price
              (st.positions.map Prod.fst) st stF hforce'
          have hstFnodup : (stF.positions.map Prod.fst).Nodup := by
            rw [hstFkeys]
            exact hkeys
          have hallnone : ∀ a, stF.getPos a = none := by
            intro a
            by_cases hm : a ∈ st.positions.map Prod.fst
            · exact f1 a hm
            · rw [f2 a hm]
              show (lookupA st.positions a).join = none
              rw [lookupA_eq_none_of_not_mem_keys _ _ hm]
              rfl
          unfold openMarketValueSum
          apply List.sum_eq_zero
          intro x hx
          rcases List.mem_map.1 hx with ⟨e, he, rfl⟩
          rcases e with ⟨a, po⟩
          have hlk : lookupA stF.positions a = some po :=
            lookupA_self_of_nodup stF.positions hstFnodup (a, po) he
          have hj : (lookupA stF.positions a).join = none := hallnone a
          rw [hlk] at hj
          have hpo : po = none := by simpa [Option.join] using hj
          subst hpo
          rfl
        rw [hzero, add_zero, hcash]
        show st.cash_usdc + _ = (st.cash_usdc +
          (st.positions.map (fun e =>
            match e.2 with
            | some p => p.market_value
                (latestPrice (sortSignals signals) e.1 ls.timestamp p)
            | none => 0)).sum)
        rw [hentries, hsum1]

/-- Witness for claim C1 on Scenario A (one BUY signal): the final cash
1000 plus no open value equals the final snapshot's equity 1000. -/
theorem claim_C1_witness :
    run_state [⟨1, .BUY, 100, "X"⟩] { slippage := 0, fee := 0 } 1000
      = .ok { trades := [("X", ⟨1, 1, .BUY, 100, 100, 10, 0, 0, 1000⟩)],
              equity_curve := [(1, ⟨0, [("X", ⟨10, some 100, 1000⟩)], 1000⟩)],
              positions := [("X", none)],
              asset_balances := [("X", 0)],
              cash_usdc := 1000 } ∧
    ∃ snap, ({ trades := [("X", ⟨1, 1, .BUY, 100, 100, 10, 0, 0, 1000⟩)],
               equity_curve := [(1, ⟨0, [("X", ⟨10, some 100, 1000⟩)], 1000⟩)],
               positions := [("X", none)],
               asset_balances := [("X", 0)],
               cash_usdc := 1000 } : EngineState).equity_curve.getLast?
        = some ((1 : Int), snap) ∧
      (1000 : Rat) + openMarketValueSum (sortSignals [⟨1, .BUY, 100, "X"⟩])
          { trades := [("X", ⟨1, 1, .BUY, 100, 100, 10, 0, 0, 1000⟩)],
            equity_curve := [(1, ⟨0, [("X", ⟨10, some 100, 1000⟩)], 1000⟩)],
            positions := [("X", none)],
            asset_balances := [("X", 0)],
            cash_usdc := 1000 } 1
        = snap.equity_usdc := by
  have hs : sortSignals [⟨1, .BUY, 100, "X"⟩] = [⟨1, .BUY, 100, "X"⟩] :=
    sortSignals_eq_of_sorted (by norm_num)
  have hlast : (sortSignals [⟨1, .BUY, 100, "X"⟩]).getLast?
      = some ⟨1, .BUY, 100, "X"⟩ := by
    rw [hs]
    rfl
  have hfold : (sortSignals [⟨1, .BUY, 100, "X"⟩]).foldlM
      (process_signal (sortSignals [⟨1, .BUY, 100, "X"⟩])
        { slippage := 0, fee := 0 } 1000) (initState 1000)
      = .ok { trades := [], equity_curve := [(1, ⟨0, [("X", ⟨10, some 100, 1000⟩)], 1000⟩)],
              positions := [("X", some ⟨.BUY, 100, 10, 1⟩)],
              asset_balances := [("X", 10)],
              cash_usdc := 0 } := by
    rw [hs]
    norm_num [process_signal, open_position, update_equity, mkSnapshot, latestPrice,
      active_asset_count, touchKey, lookupA, setA, apply_slippage, apply_fees,
      initState, Position.market_value, List.dedup, List.foldlM, Except.map,
      Except.pure, Except.bind, bind, pure]
  refine claim_C1 [⟨1, .BUY, 100, "X"⟩] { slippage := 0, fee := 0 } 1000 _ _
    ⟨1, .BUY, 100, "X"⟩ hlast hfold ?_ ?_
  · intro a p hp
    unfold lookupA at hp
    split at hp
    case isTrue ha =>
      injection hp with hp2
      injection hp2 with hp3
      subst hp3
      rw [hs, ← ha]
      rfl
    case isFalse => simp [lookupA] at hp
  · norm_num [force_close_all, force_close_last_position, close_position,
      touchKey, lookupA, setA, apply_slippage, apply_fees, Trade.from_position,
      EngineState.getPos, List.foldlM, Except.map, Except.pure, Except.bind,
      bind, pure, Option.join]

/-- Witness for claim C9: the invalid-side characterization at a concrete
CLOSE-sided position, and a concrete run that does not raise it. -/
theorem claim_C9_witness :
    ((∃ e, Trade.from_position ⟨.CLOSE, 100, 10, 1⟩ 110 2 = .error e) ↔
      (⟨.CLOSE, 100, 10, 1⟩ : Position).side = .CLOSE) ∧
    run_state [⟨1, .BUY, 100, "X"⟩] {} 1000 ≠ .error .invalidSide :=
  ⟨claim_C9.1 ⟨.CLOSE, 100, 10, 1⟩ 110 2, claim_C9.2 [⟨1, .BUY, 100, "X"⟩] {} 1000⟩

end Backtest
